import Mathlib

/-!
Shallow embedding of the BioSim simulation engine (a grid of terrain cells
hosting herbivore and carnivore populations that feed, reproduce, age, lose
condition, migrate and die across discrete annual cycles).

Conventions of the embedding:

* Python floats are modelled as rationals.  The fitness sigmoid
  (which uses the real exponential) is not representable exactly in the
  rationals, so the fitness computation is abstracted into a function
  parameter of type FitFn; every theorem quantifies over it.  The memoized
  fitness cache of the source (invalidated on every age or weight change and
  recomputed lazily on the next read) is modelled as recompute-on-read,
  which is observationally the same.
* Every random draw of the source (uniform samples, direction choices,
  shuffles, birth-weight samples) becomes an explicit oracle argument,
  a function from a draw counter to the drawn value; the counter is
  threaded through the computation exactly in the order in which the
  source consumes draws from its single random stream (we use one stream
  per kind of draw, which is equivalent for the properties proved here
  because they hold for every oracle).
* Python exceptions are modelled with Except / an explicit error value;
  the distinct exception classes and messages of the source are modelled by
  distinct constructors of BioErr.
* Python lists of mutated-in-place objects are modelled by returning the
  updated lists.
-/

namespace BioSim

/-- The two species of the simulation, the species tag of an agent. -/
inductive Species where
  | herbivore
  | carnivore
deriving DecidableEq, Repr

/-- Per-species parameter table (class attributes of Herbivore / Carnivore).
DeltaPhiMax is only ever read for carnivores; the herbivore table carries a
dummy value for it. -/
structure AnimalParams where
  w_birth : ℚ
  sigma_birth : ℚ
  beta : ℚ
  eta : ℚ
  a_half : ℚ
  phi_age : ℚ
  w_half : ℚ
  phi_weight : ℚ
  mu : ℚ
  gamma : ℚ
  zeta : ℚ
  xi : ℚ
  omega : ℚ
  F : ℚ
  DeltaPhiMax : ℚ
deriving DecidableEq, Repr

/-- Default parameters of the Herbivore class (herbivore.py). -/
def herbivoreDefaults : AnimalParams :=
  { w_birth := 8, sigma_birth := 3/2, beta := 9/10, eta := 1/20,
    a_half := 40, phi_age := 3/5, w_half := 10, phi_weight := 1/10,
    mu := 1/4, gamma := 1/5, zeta := 7/2, xi := 6/5, omega := 2/5,
    F := 10, DeltaPhiMax := 0 }

/-- Default parameters of the Carnivore class (carnivore.py). -/
def carnivoreDefaults : AnimalParams :=
  { w_birth := 6, sigma_birth := 1, beta := 3/4, eta := 1/8,
    a_half := 40, phi_age := 3/10, w_half := 4, phi_weight := 2/5,
    mu := 2/5, gamma := 4/5, zeta := 7/2, xi := 11/10, omega := 4/5,
    F := 50, DeltaPhiMax := 10 }

/-- An individual animal: species tag, age, weight and the transient
dead-flag used during carnivore feeding. -/
structure Animal where
  species : Species
  age : ℕ
  weight : ℚ
  is_dead : Bool
deriving DecidableEq, Repr

/-- Abstract fitness kernel: given the species, age and a positive weight it
returns the value of the product of the two sigmoids of the source.  The
sigmoids use the real exponential, which has no exact rational embedding, so
all theorems quantify over this function. -/
abbrev FitFn : Type := Species → ℕ → ℚ → ℚ

/-- Modelled from the spec (animal.py is not in the sources): fitness is 0
whenever weight is not positive, and otherwise the sigmoid product
represented by the abstract kernel.  The memoized cache of the source is
modelled as recompute-on-read. -/
def fitness (Φ : FitFn) (a : Animal) : ℚ :=
  if a.weight ≤ 0 then 0 else Φ a.species a.age a.weight

/-- Modelled from the spec (animal.py is not in the sources): feeding
consumes the minimum of the animal's appetite F and the available amount x,
never a negative amount, increases the weight by beta times the amount
consumed and returns the updated animal together with the amount consumed.
This matches the tests: feeding(fodder) consumes min(F, fodder). -/
def feeding (p : AnimalParams) (a : Animal) (x : ℚ) : Animal × ℚ :=
  let eaten := max 0 (min p.F x)
  ({ a with weight := a.weight + p.beta * eaten }, eaten)

/-- Modelled from the spec (animal.py is not in the sources):
aging increments the age by one year. -/
def aging (a : Animal) : Animal :=
  { a with age := a.age + 1 }

/-- Modelled from the spec (animal.py is not in the sources): lose_weight
decreases the weight by eta times the weight. -/
def lose_weight (p : AnimalParams) (a : Animal) : Animal :=
  { a with weight := a.weight - p.eta * a.weight }

/-- Modelled from the spec (animal.py is not in the sources): death is
certain when the weight is not positive, otherwise the animal dies iff the
uniform draw is below omega times (1 - fitness). -/
def death (p : AnimalParams) (Φ : FitFn) (a : Animal) (draw : ℚ) : Bool :=
  if a.weight ≤ 0 then true else decide (draw < p.omega * (1 - fitness Φ a))

/-- Modelled from the spec (animal.py is not in the sources): the migration
decision, the animal migrates iff the uniform draw is below mu times
fitness.  It does not itself move the animal. -/
def migrate_decision (p : AnimalParams) (Φ : FitFn) (a : Animal) (draw : ℚ) : Bool :=
  decide (draw < p.mu * fitness Φ a)

/-- Modelled from the spec (animal.py is not in the sources): give_birth.
No birth is possible when the population size n is at most 1.  Otherwise the
birth probability is min(1, gamma * fitness * (n - 1)), forced to 0 when the
mother's weight is below zeta * (w_birth + sigma_birth).  On a successful
draw a newborn of age 0 is constructed whose weight is the sampled
birth-weight wRaw clamped at 0; if charging the mother xi times the newborn
weight would leave her weight negative the birth does not happen (the check
precedes the debit), otherwise the mother is debited and the newborn
returned.  Returns the updated mother and the optional newborn. -/
def give_birth (p : AnimalParams) (Φ : FitFn) (a : Animal) (n : ℕ)
    (draw : ℚ) (wRaw : ℚ) : Animal × Option Animal :=
  if n ≤ 1 then (a, none)
  else
    let prob0 := min 1 (p.gamma * fitness Φ a * ((n : ℚ) - 1))
    let prob := if a.weight < p.zeta * (p.w_birth + p.sigma_birth) then 0 else prob0
    if draw < prob then
      let w := if wRaw < 0 then 0 else wRaw
      if a.weight - p.xi * w < 0 then (a, none)
      else ({ a with weight := a.weight - p.xi * w },
            some { species := a.species, age := 0, weight := w, is_dead := false })
    else (a, none)

/-- Carnivore.eat_herbivores (carnivore.py), the hunting loop: the carnivore
walks the herbivore list with its remaining appetite, stopping when the
appetite is exhausted or when it meets a herbivore at least as fit as
itself; otherwise the kill probability is (fitness gap) / DeltaPhiMax when
the gap is strictly between 0 and DeltaPhiMax and 1 otherwise; on success
(probability 1, or a fresh uniform draw below the probability) the carnivore
feeds on min(remaining appetite, herbivore weight), the herbivore is flagged
dead and the appetite decreases by the amount actually consumed.  The source
draws a uniform sample only when the probability is not 1 (short-circuit of
the or); the draw counter k mirrors that.  Returns the updated carnivore,
the remaining appetite, the next draw counter and the walked list with
updated dead-flags (the unprocessed tail is returned unchanged). -/
def eat_herbivores_go (p : AnimalParams) (Φ : FitFn) (rand : ℕ → ℚ) :
    Animal → ℚ → ℕ → List Animal → Animal × ℚ × ℕ × List Animal
  | carn, app, k, [] => (carn, app, k, [])
  | carn, app, k, h :: rest =>
    if app ≤ 0 then (carn, app, k, h :: rest)
    else if fitness Φ carn ≤ fitness Φ h then (carn, app, k, h :: rest)
    else
      let gap := fitness Φ carn - fitness Φ h
      let prob := if 0 < gap ∧ gap < p.DeltaPhiMax then gap / p.DeltaPhiMax else 1
      if prob = 1 then
        let fed := feeding p carn (min app h.weight)
        let r := eat_herbivores_go p Φ rand fed.1 (app - fed.2) k rest
        (r.1, r.2.1, r.2.2.1, { h with is_dead := true } :: r.2.2.2)
      else if rand k < prob then
        let fed := feeding p carn (min app h.weight)
        let r := eat_herbivores_go p Φ rand fed.1 (app - fed.2) (k + 1) rest
        (r.1, r.2.1, r.2.2.1, { h with is_dead := true } :: r.2.2.2)
      else
        let r := eat_herbivores_go p Φ rand carn app (k + 1) rest
        (r.1, r.2.1, r.2.2.1, h :: r.2.2.2)

/-- Carnivore.eat_herbivores (carnivore.py): the appetite starts at the
class parameter F; the call returns the updated carnivore, the next draw
counter, the walked herbivore list with updated dead-flags, and the list of
surviving herbivores (the source returns the survivors; we also expose the
flagged list so that claims about dead-flags can be stated). -/
def eat_herbivores (p : AnimalParams) (Φ : FitFn) (rand : ℕ → ℚ)
    (carn : Animal) (k : ℕ) (herbivores : List Animal) :
    Animal × ℕ × List Animal × List Animal :=
  let r := eat_herbivores_go p Φ rand carn p.F k herbivores
  (r.1, r.2.2.1, r.2.2.2, r.2.2.2.filter (fun h => !h.is_dead))

/-- The four terrain variants (the landscape classes). -/
inductive Landtype where
  | water
  | lowland
  | highland
  | desert
deriving DecidableEq, Repr

/-- The mutable class-level landscape parameters: the maximum fodder f_max
of each landscape class (Water 0, Lowland 800, Highland 300, Desert 0 by
default). -/
abbrev LandEnv : Type := Landtype → ℚ

/-- Default f_max values of the landscape classes. -/
def defaultLandEnv : LandEnv
  | .water => 0
  | .lowland => 800
  | .highland => 300
  | .desert => 0

/-- A single cell (Baseland and its subclasses): terrain tag, habitability
flag (set false only by the Water constructor), current fodder and the two
populations. -/
structure Cell where
  landtype : Landtype
  is_habitable : Bool
  fodder : ℚ
  herbivores : List Animal
  carnivores : List Animal
deriving DecidableEq, Repr

/-- Cell construction (the landscape constructors): fodder starts at the
class f_max, populations start empty, only Water is not habitable. -/
def mkCell (env : LandEnv) (lt : Landtype) : Cell :=
  { landtype := lt, is_habitable := decide (lt ≠ .water),
    fodder := env lt, herbivores := [], carnivores := [] }

/-- Baseland.place_animal: append the animal object to the population of its
species. -/
def place_animal (c : Cell) (a : Animal) : Cell :=
  if a.species = .herbivore then { c with herbivores := c.herbivores ++ [a] }
  else { c with carnivores := c.carnivores ++ [a] }

/-- Baseland.remove_animal: remove the first occurrence of the animal from
the population of its species (Python list.remove). -/
def remove_animal (c : Cell) (a : Animal) : Cell :=
  if a.species = .herbivore then { c with herbivores := c.herbivores.erase a }
  else { c with carnivores := c.carnivores.erase a }

/-- Baseland.num_animals: total number of animals in the cell. -/
def cellNumAnimals (c : Cell) : ℕ :=
  c.herbivores.length + c.carnivores.length

/-- Baseland.reset_fodder: fodder goes back to the class f_max. -/
def reset_fodder (env : LandEnv) (c : Cell) : Cell :=
  { c with fodder := env c.landtype }

/-- The herbivore feeding loop of Baseland.feed_herbivores: each herbivore
in turn eats from the remaining fodder while fodder remains, the loop breaks
at the first herbivore found with no fodder left (later herbivores eat
nothing).  Input is the fitness-descending sorted list; returns the
remaining fodder and the fed animals in that order. -/
def feed_herbivores_go (p : AnimalParams) : ℚ → List Animal → ℚ × List Animal
  | fodder, [] => (fodder, [])
  | fodder, h :: rest =>
    if 0 < fodder then
      let fed := feeding p h fodder
      let r := feed_herbivores_go p (fodder - fed.2) rest
      (r.1, fed.1 :: r.2)
    else (fodder, h :: rest)

/-- Baseland.feed_herbivores: herbivores feed in decreasing order of
fitness.  The source sorts a copy and mutates the shared animal objects in
place, leaving the stored insertion order unchanged; we return the fed
animals in the sorted order, which agrees with the source up to a
permutation of equal-fitness animals and is re-sorted by the immediately
following carnivore phase. -/
def feed_herbivores (p : AnimalParams) (Φ : FitFn) (c : Cell) : Cell :=
  let sorted := c.herbivores.mergeSort (fun a b => fitness Φ b ≤ fitness Φ a)
  let r := feed_herbivores_go p c.fodder sorted
  { c with fodder := r.1, herbivores := r.2 }

/-- The carnivore loop of Baseland.feed_carnivores: one carnivore hunts at a
time against the current herbivore list; after its turn the dead herbivores
are filtered out before the next carnivore's turn.  Returns the updated
carnivores (in hunting order), the surviving herbivores and the next draw
counter. -/
def feed_carnivores_go (p : AnimalParams) (Φ : FitFn) (rand : ℕ → ℚ) :
    List Animal → List Animal → ℕ → List Animal × List Animal × ℕ
  | [], herbs, k => ([], herbs, k)
  | carn :: carns, herbs, k =>
    let e := eat_herbivores p Φ rand carn k herbs
    let r := feed_carnivores_go p Φ rand carns e.2.2.2 e.2.1
    (e.1 :: r.1, r.2.1, r.2.2)

/-- Baseland.feed_carnivores: the carnivores are shuffled into a uniformly
random order (the shuffle is an oracle; theorems that need it assume it
permutes its input), the herbivores are sorted ascending by fitness once,
then each carnivore hunts in turn. -/
def feed_carnivores (p : AnimalParams) (Φ : FitFn)
    (shuffle : List Animal → List Animal) (rand : ℕ → ℚ) (k : ℕ) (c : Cell) :
    Cell × ℕ :=
  let carns := shuffle c.carnivores
  let herbs := c.herbivores.mergeSort (fun a b => fitness Φ a ≤ fitness Φ b)
  let r := feed_carnivores_go p Φ rand carns herbs k
  ({ c with carnivores := r.1, herbivores := r.2.1 }, r.2.2)

/-- Baseland.feed: herbivores feed on fodder, then carnivores feed on
herbivores. -/
def cell_feed (pH pC : AnimalParams) (Φ : FitFn)
    (shuffle : List Animal → List Animal) (rand : ℕ → ℚ) (k : ℕ) (c : Cell) :
    Cell × ℕ :=
  feed_carnivores pC Φ shuffle rand k (feed_herbivores pH Φ c)

/-- The birth loop of Baseland.birth (the list comprehension inside
give_birth): every animal of the list attempts give_birth with the same
population size n; the draw at offset i of the two streams belongs to the
animal at position i.  Returns the updated mothers (in order) and the
newborns (in order of their mothers). -/
def birth_go (p : AnimalParams) (Φ : FitFn) (bdraw wdraw : ℕ → ℚ) (n : ℕ) :
    ℕ → List Animal → List Animal × List Animal
  | _, [] => ([], [])
  | k, a :: rest =>
    let g := give_birth p Φ a n (bdraw k) (wdraw k)
    let r := birth_go p Φ bdraw wdraw n (k + 1) rest
    (g.1 :: r.1, (match g.2 with | some child => child :: r.2 | none => r.2))

/-- Baseland.birth: for each species independently, if its current count
exceeds 1 every animal attempts give_birth(current count), and the newborns
are appended to the population after all attempts. -/
def cell_birth (pH pC : AnimalParams) (Φ : FitFn)
    (bdrawH wdrawH bdrawC wdrawC : ℕ → ℚ) (c : Cell) : Cell :=
  let ch :=
    if 1 < c.herbivores.length then
      let r := birth_go pH Φ bdrawH wdrawH c.herbivores.length 0 c.herbivores
      { c with herbivores := r.1 ++ r.2 }
    else c
  if 1 < ch.carnivores.length then
    let r := birth_go pC Φ bdrawC wdrawC ch.carnivores.length 0 ch.carnivores
    { ch with carnivores := r.1 ++ r.2 }
  else ch

/-- Baseland.aging: every animal of both species ages by one year. -/
def cell_aging (c : Cell) : Cell :=
  { c with herbivores := c.herbivores.map aging,
           carnivores := c.carnivores.map aging }

/-- Baseland.lose_weight: every animal of both species loses condition. -/
def cell_lose_weight (pH pC : AnimalParams) (c : Cell) : Cell :=
  { c with herbivores := c.herbivores.map (lose_weight pH),
           carnivores := c.carnivores.map (lose_weight pC) }

/-- The death filter of Baseland.die: keep the animals whose death() is
false, consuming one uniform draw per animal with positive weight (death is
certain without a draw otherwise).  Returns the survivors and the next draw
counter. -/
def die_go (p : AnimalParams) (Φ : FitFn) (draw : ℕ → ℚ) :
    ℕ → List Animal → List Animal × ℕ
  | k, [] => ([], k)
  | k, a :: rest =>
    if a.weight ≤ 0 then die_go p Φ draw k rest
    else
      let r := die_go p Φ draw (k + 1) rest
      (if draw k < p.omega * (1 - fitness Φ a) then r.1 else a :: r.1, r.2)

/-- Baseland.die: only the animals that survive the year are kept, for both
species. -/
def cell_die (pH pC : AnimalParams) (Φ : FitFn) (drawH drawC : ℕ → ℚ)
    (kH kC : ℕ) (c : Cell) : Cell × ℕ × ℕ :=
  let rh := die_go pH Φ drawH kH c.herbivores
  let rc := die_go pC Φ drawC kC c.carnivores
  ({ c with herbivores := rh.1, carnivores := rc.1 }, rh.2, rc.2)

/-- The decision half of Baseland.get_migrations: the animals of the cell
(herbivores then carnivores, as chained by the source) whose migration
decision is true, one decision-oracle value per animal in order.  The
decision oracle abstracts the draw-and-compare of the missing animal.py
(probability mu times fitness); every theorem quantifies over it.  Returns
the migrants and the next decision counter. -/
def select_migrants (dec : ℕ → Bool) : ℕ → List Animal → List Animal × ℕ
  | k, [] => ([], k)
  | k, a :: rest =>
    let r := select_migrants dec (k + 1) rest
    (if dec k then a :: r.1 else r.1, r.2)

/-- Baseland.get_migrations over the chained populations of a cell. -/
def get_migrations (dec : ℕ → Bool) (k : ℕ) (c : Cell) : List Animal × ℕ :=
  select_migrants dec k (c.herbivores ++ c.carnivores)

/-- A Python value as it can appear in a parameter dictionary; only int and
float count as numeric for set_params (bool is a distinct Python type and is
rejected by the type check of the source). -/
inductive PyVal where
  | pint (n : ℤ)
  | pfloat (q : ℚ)
  | pbool (b : Bool)
  | pstr (s : String)
  | pnone
deriving DecidableEq, Repr

/-- The type check of Baseland.set_params / Animal.set_params:
type(value) == float or type(value) == int. -/
def PyVal.isNumeric : PyVal → Bool
  | .pint _ => true
  | .pfloat _ => true
  | _ => false

/-- Numeric value of a PyVal (only meaningful for numeric values). -/
def PyVal.toRat : PyVal → ℚ
  | .pint n => (n : ℚ)
  | .pfloat q => q
  | _ => 0

/-- The distinct errors raised by the engine.  ValueError and
IllegalActionError of the source are recoverable exceptions, never crashes;
each distinct message becomes a distinct constructor. -/
inductive BioErr where
  | invalidParameter (key : String)
  | invalidParameterValue (key : String)
  | invalidCellType (c : Char)
  | unequalRows
  | topRowNotWater
  | bottomRowNotWater
  | leftColNotWater
  | rightColNotWater
  | invalidAnimalType (species : String)
  | negativeAge
  | negativeWeight
  | illegalAction
  | keyError
deriving DecidableEq, Repr

/-- The validation loop of set_params (first for-loop of the source): stop
at the first entry whose key is not a known key or whose value is not
numeric. -/
def validate_params (knownKeys : List String) :
    List (String × PyVal) → Option BioErr
  | [] => none
  | (key, v) :: rest =>
    if ¬ knownKeys.contains key then some (.invalidParameter key)
    else if ¬ v.isNumeric then some (.invalidParameterValue key)
    else validate_params knownKeys rest

/-- setattr on the class parameter table, modelled as an association list
update of the first matching key. -/
def setKey : List (String × ℚ) → String → ℚ → List (String × ℚ)
  | [], _, _ => []
  | (k, v) :: rest, key, q =>
    if k = key then (k, q) :: rest else (k, v) :: setKey rest key q

/-- The application loop of set_params (second for-loop of the source). -/
def applyParams (current : List (String × ℚ)) (ps : List (String × PyVal)) :
    List (String × ℚ) :=
  ps.foldl (fun cur kv => setKey cur kv.1 kv.2.toRat) current

/-- Baseland.set_params / Animal.set_params: first every entry of the update
dictionary is validated against the known key set (unknown key or
non-numeric value raises a ValueError), and only if all entries pass is any
attribute written; on error the class table is untouched. -/
def set_params (defaults : List (String × ℚ)) (current : List (String × ℚ))
    (ps : List (String × PyVal)) : Except BioErr (List (String × ℚ)) :=
  match validate_params (defaults.map Prod.fst) ps with
  | some e => .error e
  | none => .ok (applyParams current ps)

/-- Grid coordinates, 1-based (row, column), as in island.py. -/
abbrev Coord : Type := ℤ × ℤ

/-- The coordinate-to-cell mapping of the island, a Python dict modelled as
an insertion-ordered association list (first occurrence of a key is the
binding, as for a dict with unique keys). -/
abbrev CellMap : Type := List (Coord × Cell)

/-- Dict lookup island_map[coord]. -/
def lookupCell (m : CellMap) (co : Coord) : Option Cell :=
  match m.find? (fun e => e.1 = co) with
  | some e => some e.2
  | none => none

/-- In-place mutation of the cell object stored at a coordinate: rewrite the
first entry carrying that key. -/
def updateCell : CellMap → Coord → (Cell → Cell) → CellMap
  | [], _, _ => []
  | e :: rest, co, f =>
    if e.1 = co then (e.1, f e.2) :: rest else e :: updateCell rest co f

/-- The known terrain characters of Island.cell_map. -/
def cellChars : List Char := ['L', 'W', 'D', 'H']

/-- Character to landscape class (Island.cell_map); only called on validated
geographies, unknown characters default to water. -/
def charLand (c : Char) : Landtype :=
  if c = 'L' then .lowland
  else if c = 'W' then .water
  else if c = 'D' then .desert
  else .highland

/-- The distinct-characters-equal-W check of validate_map
(get_distinct(row) == "W"): true iff the list is nonempty and all water. -/
def allWater (l : List Char) : Bool :=
  !l.isEmpty && l.all (fun c => c = 'W')

/-- Island.validate_map on the newline-split geography: every character must
be a known terrain character, all rows must have equal length, and the top
row, bottom row, leftmost column and rightmost column must be exclusively
water; each violation raises a distinct ValueError.  The source scans the
set of characters in arbitrary set order; we report the first offending
character in reading order, which errs exactly when the source errs. -/
def validate_shape (geo : List (List Char)) : Except BioErr Unit :=
  match geo with
  | [] => .error .unequalRows
  | r0 :: rest =>
    if rest.all (fun r => r.length = r0.length) = false then .error .unequalRows
    else if allWater r0 = false then .error .topRowNotWater
    else if allWater ((r0 :: rest).getLastD []) = false then .error .bottomRowNotWater
    else if allWater ((r0 :: rest).map (fun r => r.headD ' ')) = false then
      .error .leftColNotWater
    else if allWater ((r0 :: rest).map (fun r => r.getLastD ' ')) = false then
      .error .rightColNotWater
    else .ok ()

def validate_map (geo : List (List Char)) : Except BioErr Unit :=
  match geo.flatten.find? (fun c => !cellChars.contains c) with
  | some c => .error (.invalidCellType c)
  | none => validate_shape geo

/-- One row of Island._build_island: cells of a row at row index i, starting
at column index j. -/
def buildRow (env : LandEnv) (i : ℤ) : ℤ → List Char → CellMap
  | _, [] => []
  | j, ch :: rest => ((i, j), mkCell env (charLand ch)) :: buildRow env i (j + 1) rest

/-- Island._build_island: the coordinate-to-cell dict, 1-based coordinates
in reading order (the dict comprehension preserves this insertion order). -/
def buildRows (env : LandEnv) : ℤ → List (List Char) → CellMap
  | _, [] => []
  | i, row :: rest => buildRow env i 1 row ++ buildRows env (i + 1) rest

/-- The island map built from a geography. -/
def build_island (env : LandEnv) (geo : List (List Char)) : CellMap :=
  buildRows env 1 geo

/-- Island construction: validate, then build; a geography that fails
validation never produces an island. -/
def mkIsland (env : LandEnv) (geo : List (List Char)) : Except BioErr CellMap :=
  match validate_map geo with
  | .error e => .error e
  | .ok _ => .ok (build_island env geo)

/-- The habitable subset of the island (Island.habitable_map), derived as
the non-water cells in dict order; the habitability flag of a cell never
changes, so deriving it from the current map equals the view built at
construction. -/
def habitableCoords (m : CellMap) : List Coord :=
  (m.filter (fun e => e.2.is_habitable)).map Prod.fst

/-- Island.num_animals: the total animal count, summed over the habitable
cells. -/
def num_animals (m : CellMap) : ℕ :=
  ((m.filter (fun e => e.2.is_habitable)).map (fun e => cellNumAnimals e.2)).sum

/-- The four cardinal directions of Island.move_direction_map. -/
inductive Dir where
  | up
  | down
  | left
  | right
deriving DecidableEq, Repr

/-- The coordinate offsets (-1,0), (1,0), (0,-1), (0,1). -/
def Dir.offset : Dir → Coord
  | .up => (-1, 0)
  | .down => (1, 0)
  | .left => (0, -1)
  | .right => (0, 1)

/-- The neighbouring coordinate in a direction (np.sum of coord and
offset). -/
def moveCoord (co : Coord) (d : Dir) : Coord :=
  (co.1 + d.offset.1, co.2 + d.offset.2)

/-- The randomness consumed by one migrate() call: the per-animal migration
decisions (abstracting the draw-and-compare of the missing animal.py) and
the uniformly chosen directions, each indexed by its draw counter. -/
structure MigOracle where
  dec : ℕ → Bool
  dir : ℕ → Dir

/-- island_map[new_coord].is_habitable.  A missing key raises a KeyError in
the source; on validated islands every neighbour of a habitable cell is a
key (see the C10 theorem), so the missing-key case is unreachable there; we
model it as not habitable (no move). -/
def coordHabitable (m : CellMap) (co : Coord) : Bool :=
  match lookupCell m co with
  | some c => c.is_habitable
  | none => false

/-- The in-progress state of a migrate() call: the island map, the holding
list of queued moves (from, to, animal) and the direction draw counter. -/
structure MigState where
  cells : CellMap
  queue : List (Coord × Coord × Animal)
  kdir : ℕ

/-- The inner loop of Island.migrate over the migrants of the cell at co:
each migrant draws a direction; if the neighbour in that direction is
habitable the move happens immediately when the direction is up or left
(place into the destination, then remove from the origin) and is appended
to the holding list otherwise; a non-habitable destination means the animal
does not move this cycle. -/
def processMigrants (o : MigOracle) (co : Coord) :
    MigState → List Animal → MigState
  | s, [] => s
  | s, a :: rest =>
    let d := o.dir s.kdir
    let nc := moveCoord co d
    let s2 :=
      if coordHabitable s.cells nc then
        if d = .up ∨ d = .left then
          { cells := updateCell (updateCell s.cells nc (fun c => place_animal c a))
              co (fun c => remove_animal c a),
            queue := s.queue, kdir := s.kdir + 1 }
        else { s with queue := s.queue ++ [(co, nc, a)], kdir := s.kdir + 1 }
      else { s with kdir := s.kdir + 1 }
    processMigrants o co s2 rest

/-- The full in-progress state of a migrate() call, including the migration
decision counter. -/
structure MigFull where
  cells : CellMap
  queue : List (Coord × Coord × Animal)
  kdec : ℕ
  kdir : ℕ

/-- The outer loop of Island.migrate over the habitable coordinates: read
the current content of the cell, select its migrants (one decision draw per
animal) and process them. -/
def migrateLoop (o : MigOracle) : MigFull → List Coord → MigFull
  | s, [] => s
  | s, co :: rest =>
    match lookupCell s.cells co with
    | none => migrateLoop o s rest
    | some cell =>
      let sel := get_migrations o.dec s.kdec cell
      let s2 := processMigrants o co ⟨s.cells, s.queue, s.kdir⟩ sel.1
      migrateLoop o ⟨s2.cells, s2.queue, sel.2, s2.kdir⟩ rest

/-- The final phase of Island.migrate: apply the held moves in order (place
into the destination, then remove from the origin). -/
def applyQueue : CellMap → List (Coord × Coord × Animal) → CellMap
  | m, [] => m
  | m, (f, t, a) :: rest =>
    applyQueue (updateCell (updateCell m t (fun c => place_animal c a))
      f (fun c => remove_animal c a)) rest

/-- Island.migrate, also returning the final decision draw counter so that
at-most-once evaluation can be stated. -/
def migrateK (o : MigOracle) (m : CellMap) : CellMap × ℕ :=
  let s := migrateLoop o ⟨m, [], 0, 0⟩ (habitableCoords m)
  (applyQueue s.cells s.queue, s.kdec)

/-- Island.migrate. -/
def migrate (o : MigOracle) (m : CellMap) : CellMap :=
  (migrateK o m).1

/-- The randomness consumed by one Island.step call beyond migration: the
carnivore shuffle of each cell (indexed per cell), the carnivore hunting
draws, the birth and birth-weight draws per species, and the death draws per
species; theorems quantify over all of them. -/
structure StepOracle where
  shuffle : ℕ → List Animal → List Animal
  eatRand : ℕ → ℚ
  bdrawH : ℕ → ℚ
  wdrawH : ℕ → ℚ
  bdrawC : ℕ → ℚ
  wdrawC : ℕ → ℚ
  mig : MigOracle
  deathH : ℕ → ℚ
  deathC : ℕ → ℚ

/-- Phase one of Island.step over one habitable cell: reset_fodder, feed,
birth.  The counters are (cell shuffle index, carnivore hunting draw
counter, herbivore birth draw offset, carnivore birth draw offset). -/
def stepCellPhase1 (pH pC : AnimalParams) (Φ : FitFn) (env : LandEnv)
    (o : StepOracle) (ks ke kbH kbC : ℕ) (c : Cell) : Cell × ℕ × ℕ × ℕ :=
  let c1 := reset_fodder env c
  let f := cell_feed pH pC Φ (o.shuffle ks) o.eatRand ke c1
  let c3 := cell_birth pH pC Φ (fun i => o.bdrawH (kbH + i)) (fun i => o.wdrawH (kbH + i))
    (fun i => o.bdrawC (kbC + i)) (fun i => o.wdrawC (kbC + i)) f.1
  (c3, f.2, kbH + f.1.herbivores.length, kbC + f.1.carnivores.length)

/-- Phase one of Island.step over the habitable cells in dict order. -/
def stepLoop1 (pH pC : AnimalParams) (Φ : FitFn) (env : LandEnv)
    (o : StepOracle) : CellMap → ℕ → ℕ → ℕ → ℕ → List Coord → CellMap
  | m, _, _, _, _, [] => m
  | m, ks, ke, kbH, kbC, co :: rest =>
    match lookupCell m co with
    | none => stepLoop1 pH pC Φ env o m ks ke kbH kbC rest
    | some cell =>
      let r := stepCellPhase1 pH pC Φ env o ks ke kbH kbC cell
      stepLoop1 pH pC Φ env o (updateCell m co (fun _ => r.1)) (ks + 1)
        r.2.1 r.2.2.1 r.2.2.2 rest

/-- Phase three of Island.step over one habitable cell: aging, lose_weight,
die. -/
def stepCellPhase3 (pH pC : AnimalParams) (Φ : FitFn) (o : StepOracle)
    (kdH kdC : ℕ) (c : Cell) : Cell × ℕ × ℕ :=
  cell_die pH pC Φ o.deathH o.deathC kdH kdC (cell_lose_weight pH pC (cell_aging c))

/-- Phase three of Island.step over the habitable cells in dict order. -/
def stepLoop3 (pH pC : AnimalParams) (Φ : FitFn) (o : StepOracle) :
    CellMap → ℕ → ℕ → List Coord → CellMap
  | m, _, _, [] => m
  | m, kdH, kdC, co :: rest =>
    match lookupCell m co with
    | none => stepLoop3 pH pC Φ o m kdH kdC rest
    | some cell =>
      let r := stepCellPhase3 pH pC Φ o kdH kdC cell
      stepLoop3 pH pC Φ o (updateCell m co (fun _ => r.1)) r.2.1 r.2.2 rest

/-- Island.step: for every habitable cell reset_fodder, feed and birth; then
migrate across the whole island; then for every habitable cell aging,
lose_weight and die. -/
def step (pH pC : AnimalParams) (Φ : FitFn) (env : LandEnv) (o : StepOracle)
    (m : CellMap) : CellMap :=
  let m1 := stepLoop1 pH pC Φ env o m 0 0 0 0 (habitableCoords m)
  let m2 := migrate o.mig m1
  stepLoop3 pH pC Φ o m2 0 0 (habitableCoords m2)

/-- An animal as specified in a population placement dictionary: species
name, optional age (default 0) and optional weight (None means sampled). -/
structure AnimalSpec where
  species : String
  age : ℤ
  weight : Option ℚ
deriving DecidableEq, Repr

/-- Modelled from the spec (animal.py is not in the sources): the Animal
constructor rejects a negative age or weight with a construction error; an
unset weight is sampled from the birth-weight distribution (the oracle value
wRaw) and clamped at 0 if negative. -/
def mkAnimal (sp : Species) (age : ℤ) (w : Option ℚ) (wRaw : ℚ) :
    Except BioErr Animal :=
  if age < 0 then .error .negativeAge
  else
    match w with
    | some wt =>
      if wt < 0 then .error .negativeWeight
      else .ok { species := sp, age := age.toNat, weight := wt, is_dead := false }
    | none => .ok { species := sp, age := age.toNat,
                    weight := max 0 wRaw, is_dead := false }

/-- Baseland.add_animal / Water.add_animal: on water the IllegalActionError
is raised (Water overrides add_animal before anything is checked); otherwise
an unknown species name is a ValueError, and the constructed animal is
placed into the cell. -/
def add_animal (c : Cell) (a : AnimalSpec) (wRaw : ℚ) : Except BioErr Cell :=
  if c.landtype = .water then .error .illegalAction
  else if a.species ≠ "Herbivore" ∧ a.species ≠ "Carnivore" then
    .error (.invalidAnimalType a.species)
  else
    let sp := if a.species = "Herbivore" then Species.herbivore else Species.carnivore
    match mkAnimal sp a.age a.weight wRaw with
    | .error e => .error e
    | .ok animal => .ok (place_animal c animal)

/-- The inner loop of Island.place_animals over the animals of one
placement dictionary.  An exception stops the loop; the mutations applied
before it persist (Python state is kept on an exception), hence the state
is returned along the optional error. -/
def placeAnimalsAt (m : CellMap) (loc : Coord) (wRaw : ℕ → ℚ) (kw : ℕ) :
    List AnimalSpec → CellMap × ℕ × Option BioErr
  | [] => (m, kw, none)
  | a :: rest =>
    match lookupCell m loc with
    | none => (m, kw, some .keyError)
    | some cell =>
      match add_animal cell a (wRaw kw) with
      | .error e => (m, kw, some e)
      | .ok cell2 =>
        placeAnimalsAt (updateCell m loc (fun _ => cell2)) loc wRaw (kw + 1) rest

/-- Island.place_animals over the placement dictionaries; stops at the first
error, keeping the mutations applied so far. -/
def place_animals (m : CellMap) (wRaw : ℕ → ℚ) (kw : ℕ) :
    List (Coord × List AnimalSpec) → CellMap × ℕ × Option BioErr
  | [] => (m, kw, none)
  | (loc, animals) :: rest =>
    let r := placeAnimalsAt m loc wRaw kw animals
    match r.2.2 with
    | some e => (r.1, r.2.1, some e)
    | none => place_animals r.1 wRaw r.2.1 rest

/-- Reading a class attribute from the parameter table. -/
def lookupParam (l : List (String × ℚ)) (key : String) : Option ℚ :=
  match l.find? (fun kv => kv.1 = key) with
  | some kv => some kv.2
  | none => none

/-- The multiset of animals of a cell (both species). -/
def cellAnimals (c : Cell) : Multiset Animal :=
  (c.herbivores : Multiset Animal) + (c.carnivores : Multiset Animal)

/-- The multiset of all animals stored anywhere in the map (water cells
included; on every reachable state the water cells are empty). -/
def allAnimals (m : CellMap) : Multiset Animal :=
  (m.map (fun e => cellAnimals e.2)).sum

/-- The multiset of animals stored at a coordinate (0 for a missing key). -/
def animalsAt (m : CellMap) (co : Coord) : Multiset Animal :=
  match lookupCell m co with
  | some c => cellAnimals c
  | none => 0

/-- Reading-order (lexicographic) strict order on coordinates; the keys of a
built island map are strictly increasing in this order. -/
def coordLt (a b : Coord) : Prop :=
  a.1 < b.1 ∨ (a.1 = b.1 ∧ a.2 < b.2)

instance coordLtDecidable (a b : Coord) : Decidable (coordLt a b) :=
  inferInstanceAs (Decidable (a.1 < b.1 ∨ (a.1 = b.1 ∧ a.2 < b.2)))

/-- The multiset of animals held in the migration queue whose origin is a
given coordinate. -/
def queuedFrom (q : List (Coord × Coord × Animal)) (co : Coord) : Multiset Animal :=
  ((q.filter (fun e => e.1 = co)).map (fun e => e.2.2) : List Animal)

/-- The multiset of animals of the habitable cells, the contents counted by
Island.num_animals. -/
def habAnimals (m : CellMap) : Multiset Animal :=
  ((m.filter (fun e => e.2.is_habitable)).map (fun e => cellAnimals e.2)).sum

/-- A cell stores herbivores in the herbivore list and carnivores in the
carnivore list; every state reachable through place_animal holds this. -/
def speciesOk (c : Cell) : Prop :=
  (∀ a ∈ c.herbivores, a.species = .herbivore) ∧
  (∀ a ∈ c.carnivores, a.species = .carnivore)

instance speciesOkDecidable (c : Cell) : Decidable (speciesOk c) :=
  inferInstanceAs (Decidable ((∀ a ∈ c.herbivores, a.species = .herbivore) ∧
    (∀ a ∈ c.carnivores, a.species = .carnivore)))

/-- Every cell of the map is species-consistent. -/
def speciesConsistent (m : CellMap) : Prop :=
  ∀ e ∈ m, speciesOk e.2

instance speciesConsistentDecidable (m : CellMap) : Decidable (speciesConsistent m) :=
  inferInstanceAs (Decidable (∀ e ∈ m, speciesOk e.2))

/-- The geography of the single-Lowland scenario of the spec: a 3 by 3
layout whose only habitable cell is the Lowland at (2,2). -/
def geoSingleLowland : List (List Char) :=
  [['W', 'W', 'W'], ['W', 'L', 'W'], ['W', 'W', 'W']]

/-- The population placement of the scenario: 50 herbivores of age 5 and
weight 20 at the Lowland cell. -/
def popSingleLowland : List (Coord × List AnimalSpec) :=
  [(((2 : ℤ), (2 : ℤ)), List.replicate 50 (AnimalSpec.mk "Herbivore" 5 (some 20)))]

/-- The island of the scenario after the placement (the birth-weight oracle
is irrelevant: every placed animal comes with an explicit weight). -/
def islandSingleLowland : CellMap :=
  (place_animals (build_island defaultLandEnv geoSingleLowland) (fun _ => 0) 0
    popSingleLowland).1

/-- A water cell as built by the Water constructor. -/
def waterCell : Cell := Cell.mk .water false 0 [] []

/-- The scenario map with an arbitrary content of the Lowland cell: the
shape every intermediate state of the scenario run has. -/
def mapSL (c : Cell) : CellMap :=
  [(((1 : ℤ), (1 : ℤ)), waterCell), (((1 : ℤ), (2 : ℤ)), waterCell),
   (((1 : ℤ), (3 : ℤ)), waterCell), (((2 : ℤ), (1 : ℤ)), waterCell),
   (((2 : ℤ), (2 : ℤ)), c), (((2 : ℤ), (3 : ℤ)), waterCell),
   (((3 : ℤ), (1 : ℤ)), waterCell), (((3 : ℤ), (2 : ℤ)), waterCell),
   (((3 : ℤ), (3 : ℤ)), waterCell)]

/-! ## Theorems -/

/-- Helper: under the loop invariants of eat_herbivores_go (the herbivore
weight is non-negative and the remaining appetite never exceeds F), feeding
on min(appetite, weight) consumes exactly min(appetite, weight). -/
theorem feeding_min_eq (p : AnimalParams) (carn h : Animal) (app : ℚ)
    (hw : 0 ≤ h.weight) (happ : app ≤ p.F) (hpos : 0 < app) :
    (feeding p carn (min app h.weight)).2 = min app h.weight := by
  simp only [feeding]
  have h1 : min app h.weight ≤ p.F := le_trans (min_le_left _ _) happ
  have h2 : 0 ≤ min app h.weight := le_min (le_of_lt hpos) hw
  rw [min_eq_right h1, max_eq_right h2]

/-- C3: when a carnivore hunts a herbivore list, it stops as soon as its
remaining appetite is at most 0 (in particular a carnivore with appetite
F = 0 kills no herbivore and changes no herbivore on the whole call); it
stops without consuming at the first herbivore at least as fit as itself;
otherwise the kill probability of the source equals the spec's
1 when the fitness gap is at least DeltaPhiMax and gap / DeltaPhiMax in
between; on success (probability 1, or the fresh uniform draw below the
probability) it feeds on min(remaining appetite, herbivore weight), flags
the herbivore dead and continues with the appetite reduced by exactly the
amount consumed; on failure everything is unchanged and the hunt moves on. -/
theorem C3_eat_herbivores_characterization (p : AnimalParams) (Φ : FitFn)
    (rand : ℕ → ℚ) (carn h : Animal) (rest : List Animal) (app : ℚ) (k : ℕ)
    (hw : 0 ≤ h.weight) (happ : app ≤ p.F) :
    (app ≤ 0 →
      eat_herbivores_go p Φ rand carn app k (h :: rest) = (carn, app, k, h :: rest)) ∧
    (∀ l : List Animal, p.F ≤ 0 →
      eat_herbivores p Φ rand carn k l = (carn, k, l, l.filter (fun x => !x.is_dead))) ∧
    (0 < app → fitness Φ carn ≤ fitness Φ h →
      eat_herbivores_go p Φ rand carn app k (h :: rest) = (carn, app, k, h :: rest)) ∧
    (0 < app → fitness Φ h < fitness Φ carn →
      (let gap := fitness Φ carn - fitness Φ h
       let prob := if 0 < gap ∧ gap < p.DeltaPhiMax then gap / p.DeltaPhiMax else 1
       let eaten := min app h.weight
       prob = (if p.DeltaPhiMax ≤ gap then 1 else gap / p.DeltaPhiMax) ∧
       ((prob = 1 ∨ rand k < prob) →
         eat_herbivores_go p Φ rand carn app k (h :: rest) =
           (let r := eat_herbivores_go p Φ rand (feeding p carn eaten).1 (app - eaten)
              (if prob = 1 then k else k + 1) rest
            (r.1, r.2.1, r.2.2.1, { h with is_dead := true } :: r.2.2.2)) ∧
         (feeding p carn eaten).2 = eaten) ∧
       (¬ (prob = 1 ∨ rand k < prob) →
         eat_herbivores_go p Φ rand carn app k (h :: rest) =
           (let r := eat_herbivores_go p Φ rand carn app (k + 1) rest
            (r.1, r.2.1, r.2.2.1, h :: r.2.2.2))))) := by
  refine ⟨?_, ?_, ?_, ?_⟩
  · intro h0
    simp [eat_herbivores_go, h0]
  · intro l hF
    cases l with
    | nil => simp [eat_herbivores, eat_herbivores_go]
    | cons x xs => simp [eat_herbivores, eat_herbivores_go, hF]
  · intro hpos hfit
    rw [eat_herbivores_go]
    rw [if_neg (not_le.mpr hpos), if_pos hfit]
  · intro hpos hfit
    have hgap : 0 < fitness Φ carn - fitness Φ h := sub_pos.mpr hfit
    refine ⟨?_, ?_, ?_⟩
    · by_cases hlt : fitness Φ carn - fitness Φ h < p.DeltaPhiMax
      · rw [if_pos ⟨hgap, hlt⟩, if_neg (not_le.mpr hlt)]
      · rw [if_neg (fun hc => hlt hc.2), if_pos (le_of_not_lt hlt)]
    · intro hsucc
      have hfe := feeding_min_eq p carn h app hw happ hpos
      constructor
      · rcases hsucc with h1 | hdraw
        · rw [eat_herbivores_go]
          rw [if_neg (not_le.mpr hpos), if_neg (not_le.mpr hfit)]
          simp only [h1, if_pos rfl]
          simp [h1, hfe]
        · by_cases h1 : (if 0 < fitness Φ carn - fitness Φ h ∧
              fitness Φ carn - fitness Φ h < p.DeltaPhiMax then
              (fitness Φ carn - fitness Φ h) / p.DeltaPhiMax else 1) = 1
          · rw [eat_herbivores_go]
            rw [if_neg (not_le.mpr hpos), if_neg (not_le.mpr hfit)]
            simp only [h1, if_pos rfl]
            simp [h1, hfe]
          · rw [eat_herbivores_go]
            rw [if_neg (not_le.mpr hpos), if_neg (not_le.mpr hfit)]
            simp only [if_neg h1, if_pos hdraw]
            simp [h1, hfe]
      · exact feeding_min_eq p carn h app hw happ hpos
    · intro hfail
      push_neg at hfail
      rw [eat_herbivores_go]
      rw [if_neg (not_le.mpr hpos), if_neg (not_le.mpr hfit)]
      simp only [if_neg hfail.1, if_neg (not_lt.mpr hfail.2)]

/-- Witness for C3 at a concrete input: carnivore of weight 50 against a
herbivore of weight 20 with appetite 50 = F. -/
theorem C3_eat_herbivores_characterization_witness :
    ((0 : ℚ) ≤ (Animal.mk .herbivore 5 20 false).weight) ∧
    ((50 : ℚ) ≤ carnivoreDefaults.F) ∧
    ((50 : ℚ) ≤ 0 →
      eat_herbivores_go carnivoreDefaults (fun _ _ _ => 0) (fun _ => 0)
        (Animal.mk .carnivore 2 50 false) 50 0 [Animal.mk .herbivore 5 20 false] =
      (Animal.mk .carnivore 2 50 false, 50, 0, [Animal.mk .herbivore 5 20 false])) :=
  ⟨by norm_num, by norm_num [carnivoreDefaults],
   (C3_eat_herbivores_characterization carnivoreDefaults (fun _ _ _ => 0) (fun _ => 0)
     (Animal.mk .carnivore 2 50 false) (Animal.mk .herbivore 5 20 false) [] 50 0
     (by norm_num) (by norm_num [carnivoreDefaults])).1⟩

/-- C2, counterexample to the claim as stated: in the carnivore feeding
phase the herbivores are hunted in ascending order of fitness and the hunt
only stops at the first herbivore at least as fit as the carnivore, so a
carnivore whose fitness lies strictly between the fitness of two available
herbivores can still kill the less fit one even though it is less fit than
the fittest available herbivore.  Concrete instance: fitness values 1/5 and
3/5 for the herbivores and 1/2 for the carnivore (any value in (0,1) is
attained by the fitness sigmoids at a suitable weight), a uniform draw of 0;
the carnivore's fitness is at most the fittest available herbivore's
fitness, yet the first herbivore is flagged dead. -/
theorem C2_counterexample :
    fitness (fun _ _ w => w / 100) (Animal.mk .carnivore 2 50 false) ≤
      fitness (fun _ _ w => w / 100) (Animal.mk .herbivore 5 60 false) ∧
    (eat_herbivores carnivoreDefaults (fun _ _ w => w / 100) (fun _ => 0)
        (Animal.mk .carnivore 2 50 false) 0
        [Animal.mk .herbivore 5 20 false, Animal.mk .herbivore 5 60 false]).2.2.1 =
      [Animal.mk .herbivore 5 20 true, Animal.mk .herbivore 5 60 true] := by
  constructor
  · norm_num [fitness]
  · norm_num [eat_herbivores, eat_herbivores_go, fitness, feeding,
      carnivoreDefaults, min_def, max_def]

/-- C2, amended: a carnivore whose fitness is less than or equal to the
fitness of every herbivore currently available to it (equivalently, of the
least fit available herbivore) kills nothing that cycle: the call returns
the carnivore, the herbivore list and their weights and dead-flags
unchanged. -/
theorem C2_low_fitness_carnivore_kills_nothing (p : AnimalParams) (Φ : FitFn)
    (rand : ℕ → ℚ) (carn : Animal) (k : ℕ) (herbs : List Animal)
    (hall : ∀ h ∈ herbs, fitness Φ carn ≤ fitness Φ h) :
    eat_herbivores p Φ rand carn k herbs =
      (carn, k, herbs, herbs.filter (fun h => !h.is_dead)) := by
  cases herbs with
  | nil => simp [eat_herbivores, eat_herbivores_go]
  | cons h rest =>
    rw [eat_herbivores, eat_herbivores_go]
    by_cases hF : p.F ≤ 0
    · simp [hF]
    · rw [if_neg hF, if_pos (hall h (List.mem_cons_self h rest))]

/-- Witness for the amended C2 at a concrete input: a carnivore of fitness
2/10 against herbivores of fitness 2/10 and 6/10. -/
theorem C2_low_fitness_carnivore_kills_nothing_witness :
    (∀ h ∈ [Animal.mk .herbivore 5 20 false, Animal.mk .herbivore 5 60 false],
      fitness (fun _ _ w => w / 100) (Animal.mk .carnivore 2 20 false) ≤
        fitness (fun _ _ w => w / 100) h) ∧
    eat_herbivores carnivoreDefaults (fun _ _ w => w / 100) (fun _ => 0)
        (Animal.mk .carnivore 2 20 false) 0
        [Animal.mk .herbivore 5 20 false, Animal.mk .herbivore 5 60 false] =
      (Animal.mk .carnivore 2 20 false, 0,
       [Animal.mk .herbivore 5 20 false, Animal.mk .herbivore 5 60 false],
       [Animal.mk .herbivore 5 20 false, Animal.mk .herbivore 5 60 false]) := by
  constructor
  · intro h hm
    rcases List.mem_pair.mp hm with h1 | h1 <;> subst h1 <;> norm_num [fitness]
  · rw [C2_low_fitness_carnivore_kills_nothing carnivoreDefaults
      (fun _ _ w => w / 100) (fun _ => 0) (Animal.mk .carnivore 2 20 false) 0
      [Animal.mk .herbivore 5 20 false, Animal.mk .herbivore 5 60 false]
      (by intro h hm
          rcases List.mem_pair.mp hm with h1 | h1 <;> subst h1 <;> norm_num [fitness])]
    simp

/-- C4: give_birth(n) returns no newborn when n is at most 1, and (for a
uniform draw, which is never negative) when the mother's weight is below
zeta * (w_birth + sigma_birth); whenever a newborn is produced the mother's
weight decreases by exactly xi times the newborn's weight and stays
non-negative (the negative-weight check precedes the debit); and whenever no
newborn is produced the mother is unchanged. -/
theorem C4_give_birth (p : AnimalParams) (Φ : FitFn) (a : Animal) (n : ℕ)
    (draw wRaw : ℚ) (hd : 0 ≤ draw) :
    (n ≤ 1 → give_birth p Φ a n draw wRaw = (a, none)) ∧
    (a.weight < p.zeta * (p.w_birth + p.sigma_birth) →
      give_birth p Φ a n draw wRaw = (a, none)) ∧
    (∀ a2 child, give_birth p Φ a n draw wRaw = (a2, some child) →
      a2.weight = a.weight - p.xi * child.weight ∧ 0 ≤ a2.weight) ∧
    (∀ a2, give_birth p Φ a n draw wRaw = (a2, none) → a2 = a) := by
  by_cases hn : n ≤ 1
  · refine ⟨fun _ => by rw [give_birth, if_pos hn], fun _ => by rw [give_birth, if_pos hn],
      ?_, ?_⟩
    · intro a2 child hc
      rw [give_birth, if_pos hn] at hc
      exact absurd (congrArg Prod.snd hc) (by simp)
    · intro a2 hc
      rw [give_birth, if_pos hn] at hc
      exact (congrArg Prod.fst hc).symm
  · refine ⟨fun h => absurd h hn, ?_, ?_, ?_⟩
    · intro hgate
      rw [give_birth, if_neg hn]
      simp only [if_pos hgate]
      rw [if_neg (not_lt.mpr hd)]
    · intro a2 child hc
      rw [give_birth, if_neg hn] at hc
      by_cases hdr : draw < (if a.weight < p.zeta * (p.w_birth + p.sigma_birth) then 0
          else min 1 (p.gamma * fitness Φ a * ((n : ℚ) - 1)))
      · rw [if_pos hdr] at hc
        by_cases hneg : a.weight - p.xi * (if wRaw < 0 then 0 else wRaw) < 0
        · rw [if_pos hneg] at hc
          exact absurd (congrArg Prod.snd hc) (by simp)
        · rw [if_neg hneg] at hc
          have h1 : a2 = { a with weight := a.weight - p.xi * (if wRaw < 0 then 0 else wRaw) } :=
            (congrArg Prod.fst hc).symm
          have h2 : child = Animal.mk a.species 0 (if wRaw < 0 then 0 else wRaw) false :=
            (Option.some.inj (congrArg Prod.snd hc)).symm
          subst h1
          rw [h2]
          exact ⟨rfl, not_lt.mp hneg⟩
      · rw [if_neg hdr] at hc
        exact absurd (congrArg Prod.snd hc) (by simp)
    · intro a2 hc
      rw [give_birth, if_neg hn] at hc
      by_cases hdr : draw < (if a.weight < p.zeta * (p.w_birth + p.sigma_birth) then 0
          else min 1 (p.gamma * fitness Φ a * ((n : ℚ) - 1)))
      · rw [if_pos hdr] at hc
        by_cases hneg : a.weight - p.xi * (if wRaw < 0 then 0 else wRaw) < 0
        · rw [if_pos hneg] at hc
          exact (congrArg Prod.fst hc).symm
        · rw [if_neg hneg] at hc
          exact absurd (congrArg Prod.snd hc) (by simp)
      · rw [if_neg hdr] at hc
        exact (congrArg Prod.fst hc).symm

/-- Witness for C4 at a concrete input: a mother of weight 30 (below the
herbivore gate 3.5 * (8 + 1.5) = 33.25) with population size 2 and draw 0
produces no newborn. -/
theorem C4_give_birth_witness :
    ((0 : ℚ) ≤ 0) ∧
    ((Animal.mk .herbivore 3 30 false).weight <
      herbivoreDefaults.zeta * (herbivoreDefaults.w_birth + herbivoreDefaults.sigma_birth)) ∧
    give_birth herbivoreDefaults (fun _ _ _ => 1) (Animal.mk .herbivore 3 30 false) 2 0 9 =
      (Animal.mk .herbivore 3 30 false, none) :=
  ⟨le_refl 0, by norm_num [herbivoreDefaults],
   (C4_give_birth herbivoreDefaults (fun _ _ _ => 1) (Animal.mk .herbivore 3 30 false) 2 0 9
     (le_refl 0)).2.1 (by norm_num [herbivoreDefaults])⟩

/-- Helper: the validation loop reports an error whenever some entry has an
unknown key or a non-numeric value. -/
theorem validate_params_error_of_bad (keys : List String)
    (ps : List (String × PyVal)) (kv : String × PyVal) (hmem : kv ∈ ps)
    (hbad : ¬ keys.contains kv.1 ∨ kv.2.isNumeric = false) :
    ∃ e, validate_params keys ps = some e := by
  induction ps with
  | nil => cases hmem
  | cons hd tl ih =>
    rw [validate_params]
    by_cases h1 : keys.contains hd.1
    · rw [if_neg (by simpa using h1)]
      by_cases h2 : hd.2.isNumeric
      · rw [if_neg (by simpa using h2)]
        rcases List.mem_cons.mp hmem with he | htl
        · subst he
          rcases hbad with hb | hb
          · exact absurd h1 hb
          · rw [h2] at hb
            cases hb
        · exact ih htl
      · refine ⟨.invalidParameterValue hd.1, ?_⟩
        rw [if_pos (by simpa using h2)]
    · exact ⟨.invalidParameter hd.1, by rw [if_pos (by simpa using h1)]⟩

/-- Helper: the validation loop passes when every entry has a known key and
a numeric value. -/
theorem validate_params_none_of_good (keys : List String)
    (ps : List (String × PyVal))
    (hgood : ∀ kv ∈ ps, keys.contains kv.1 ∧ kv.2.isNumeric) :
    validate_params keys ps = none := by
  induction ps with
  | nil => rfl
  | cons hd tl ih =>
    have hh := hgood hd (List.mem_cons_self hd tl)
    rw [validate_params, if_neg (by simpa using hh.1), if_neg (by simpa using hh.2)]
    exact ih (fun kv hm => hgood kv (List.mem_cons_of_mem hd hm))

/-- Helper: setKey does not change the key list. -/
theorem setKey_keys (l : List (String × ℚ)) (key : String) (q : ℚ) :
    (setKey l key q).map Prod.fst = l.map Prod.fst := by
  induction l with
  | nil => rfl
  | cons hd tl ih =>
    rw [setKey]
    by_cases h : hd.1 = key
    · rw [if_pos h]
      rfl
    · rw [if_neg h]
      simpa using ih

/-- Helper: reading back the key just written. -/
theorem lookupParam_setKey_self (l : List (String × ℚ)) (key : String) (q : ℚ)
    (hmem : key ∈ l.map Prod.fst) :
    lookupParam (setKey l key q) key = some q := by
  induction l with
  | nil => cases hmem
  | cons hd tl ih =>
    rw [setKey]
    by_cases h : hd.1 = key
    · rw [if_pos h]
      simp only [lookupParam]
      rw [List.find?_cons_of_pos _ (by simpa using h)]
    · rw [if_neg h]
      have hmem2 : key ∈ tl.map Prod.fst := by
        rcases List.mem_map.mp hmem with ⟨e, he, hk⟩
        rcases List.mem_cons.mp he with h1 | h1
        · exact absurd (h1 ▸ hk) h
        · exact List.mem_map.mpr ⟨e, h1, hk⟩
      have := ih hmem2
      simp only [lookupParam] at this ⊢
      rw [List.find?_cons_of_neg _ (by simpa using h)]
      exact this

/-- Helper: writing one key does not change another. -/
theorem lookupParam_setKey_ne (l : List (String × ℚ)) (key k2 : String) (q : ℚ)
    (hne : k2 ≠ key) :
    lookupParam (setKey l key q) k2 = lookupParam l k2 := by
  induction l with
  | nil => rfl
  | cons hd tl ih =>
    rw [setKey]
    by_cases h : hd.1 = key
    · rw [if_pos h]
      have hk2 : ¬ (hd.1 = k2) := fun hc => hne ((h ▸ hc : key = k2)).symm
      simp only [lookupParam]
      rw [List.find?_cons_of_neg _ (by simpa using hk2),
          List.find?_cons_of_neg _ (by simpa using hk2)]
    · rw [if_neg h]
      by_cases h2 : hd.1 = k2
      · simp only [lookupParam]
        rw [List.find?_cons_of_pos _ (by simpa using h2),
            List.find?_cons_of_pos _ (by simpa using h2)]
      · have := ih
        simp only [lookupParam] at this ⊢
        rw [List.find?_cons_of_neg _ (by simpa using h2),
            List.find?_cons_of_neg _ (by simpa using h2)]
        exact this

/-- Helper: applying updates that do not mention a key leaves it alone. -/
theorem lookupParam_applyParams_notmem (current : List (String × ℚ))
    (ps : List (String × PyVal)) (key : String)
    (hnot : key ∉ ps.map Prod.fst) :
    lookupParam (applyParams current ps) key = lookupParam current key := by
  induction ps generalizing current with
  | nil => rfl
  | cons hd tl ih =>
    rw [applyParams, List.foldl_cons]
    have h1 : key ∉ tl.map Prod.fst := fun hc => hnot (by simp [hc])
    have h2 : key ≠ hd.1 := fun hc => hnot (by simp [hc])
    rw [show List.foldl (fun cur kv => setKey cur kv.1 kv.2.toRat)
        (setKey current hd.1 hd.2.toRat) tl =
        applyParams (setKey current hd.1 hd.2.toRat) tl from rfl]
    rw [ih (setKey current hd.1 hd.2.toRat) h1]
    exact lookupParam_setKey_ne current hd.1 key hd.2.toRat h2

/-- Helper: after a bulk update with pairwise distinct keys, every listed
key that exists in the table reads back its listed value. -/
theorem lookupParam_applyParams (current : List (String × ℚ))
    (ps : List (String × PyVal)) (hnd : (ps.map Prod.fst).Nodup) :
    ∀ kv ∈ ps, kv.1 ∈ current.map Prod.fst →
      lookupParam (applyParams current ps) kv.1 = some kv.2.toRat := by
  induction ps generalizing current with
  | nil => intro kv hm; cases hm
  | cons hd tl ih =>
    intro kv hm hcur
    rw [applyParams, List.foldl_cons]
    rw [show List.foldl (fun cur kv => setKey cur kv.1 kv.2.toRat)
        (setKey current hd.1 hd.2.toRat) tl =
        applyParams (setKey current hd.1 hd.2.toRat) tl from rfl]
    have hnd1 : (hd.1 :: tl.map Prod.fst).Nodup := by
      rw [List.map_cons] at hnd
      exact hnd
    obtain ⟨hnot0, hndtl⟩ := List.nodup_cons.mp hnd1
    rcases List.mem_cons.mp hm with he | htl
    · subst he
      rw [lookupParam_applyParams_notmem _ tl kv.1 hnot0]
      exact lookupParam_setKey_self current kv.1 kv.2.toRat hcur
    · have hnd2 : (tl.map Prod.fst).Nodup := hndtl
      have hcur2 : kv.1 ∈ (setKey current hd.1 hd.2.toRat).map Prod.fst := by
        rw [setKey_keys]
        exact hcur
      exact ih (setKey current hd.1 hd.2.toRat) hnd2 kv htl hcur2

/-- C7: a bulk parameter update (set_params) first validates every entry of
the dictionary against the known key set before any attribute is written:
if any key is unknown or any value is not numeric the call raises a
configuration error and the class table is left untouched (all-or-nothing);
if every entry is valid, the update succeeds and every listed parameter
reads back its listed value (for a dictionary with pairwise distinct keys,
on keys present in the table). -/
theorem C7_set_params_all_or_nothing (defaults current : List (String × ℚ))
    (ps : List (String × PyVal)) :
    ((∃ kv ∈ ps, ¬ (defaults.map Prod.fst).contains kv.1 ∨ kv.2.isNumeric = false) →
      ∃ e, set_params defaults current ps = .error e) ∧
    ((∀ kv ∈ ps, (defaults.map Prod.fst).contains kv.1 ∧ kv.2.isNumeric) →
      set_params defaults current ps = .ok (applyParams current ps) ∧
      ((ps.map Prod.fst).Nodup → ∀ kv ∈ ps, kv.1 ∈ current.map Prod.fst →
        lookupParam (applyParams current ps) kv.1 = some kv.2.toRat)) := by
  constructor
  · rintro ⟨kv, hmem, hbad⟩
    obtain ⟨e, he⟩ := validate_params_error_of_bad (defaults.map Prod.fst) ps kv hmem hbad
    exact ⟨e, by rw [set_params, he]⟩
  · intro hgood
    constructor
    · rw [set_params, validate_params_none_of_good _ _ hgood]
    · intro hnd kv hm hcur
      exact lookupParam_applyParams current ps hnd kv hm hcur

/-- Witness for C7 at concrete inputs: on the herbivore key set, an update
dictionary with the unknown key alpha raises an error, and the valid update
of w_birth to 10 succeeds and reads back. -/
theorem C7_set_params_all_or_nothing_witness :
    ((∃ kv ∈ [("alpha", PyVal.pint 5)],
      ¬ ((([("w_birth", (8 : ℚ))]).map Prod.fst).contains kv.1) ∨ kv.2.isNumeric = false) →
      ∃ e, set_params [("w_birth", (8 : ℚ))] [("w_birth", (8 : ℚ))]
        [("alpha", PyVal.pint 5)] = .error e) ∧
    (∃ e, set_params [("w_birth", (8 : ℚ))] [("w_birth", (8 : ℚ))]
      [("alpha", PyVal.pint 5)] = .error e) ∧
    set_params [("w_birth", (8 : ℚ))] [("w_birth", (8 : ℚ))] [("w_birth", PyVal.pfloat 10)] =
      .ok (applyParams [("w_birth", (8 : ℚ))] [("w_birth", PyVal.pfloat 10)]) :=
  ⟨(C7_set_params_all_or_nothing [("w_birth", (8 : ℚ))] [("w_birth", (8 : ℚ))]
      [("alpha", PyVal.pint 5)]).1,
   (C7_set_params_all_or_nothing [("w_birth", (8 : ℚ))] [("w_birth", (8 : ℚ))]
      [("alpha", PyVal.pint 5)]).1
     ⟨("alpha", PyVal.pint 5), List.mem_singleton.mpr rfl, by simp⟩,
   ((C7_set_params_all_or_nothing [("w_birth", (8 : ℚ))] [("w_birth", (8 : ℚ))]
      [("w_birth", PyVal.pfloat 10)]).2
     (by intro kv hm
         rcases List.mem_singleton.mp hm with rfl
         exact ⟨by simp, by simp [PyVal.isNumeric]⟩)).1⟩

/-- Helper: a geography containing an unknown character fails character
validation with an invalidCellType error. -/
theorem validate_map_badchar (geo : List (List Char))
    (hc : ∃ c ∈ geo.flatten, cellChars.contains c = false) :
    ∃ c2, validate_map geo = .error (.invalidCellType c2) := by
  obtain ⟨c, hmem, hbad⟩ := hc
  have h1 : (geo.flatten.find? (fun c => !cellChars.contains c)).isSome := by
    rw [List.find?_isSome]
    refine ⟨c, hmem, ?_⟩
    simpa using hbad
  obtain ⟨c2, hc2⟩ := Option.isSome_iff_exists.mp h1
  exact ⟨c2, by rw [validate_map.eq_def, hc2]⟩

/-- Helper: with only known characters, validation reduces to the shape and
border checks. -/
theorem validate_map_goodchar (geo : List (List Char))
    (hall : ∀ c ∈ geo.flatten, cellChars.contains c = true) :
    validate_map geo = validate_shape geo := by
  have hcn : geo.flatten.find? (fun c => !cellChars.contains c) = none := by
    rw [List.find?_eq_none]
    intro c hmem
    simpa using hall c hmem
  rw [validate_map.eq_def, hcn]

/-- Helper: a list containing a non-water character is not all water. -/
theorem allWater_eq_false_of_mem (l : List Char) (c : Char) (hm : c ∈ l)
    (hc : c ≠ 'W') : allWater l = false := by
  have h2 : l.all (fun x => x = 'W') = false :=
    Bool.eq_false_iff.mpr (fun hall => hc (by simpa using List.all_eq_true.mp hall c hm))
  simp [allWater, h2]

/-- C8: Island construction rejects, with a distinct recoverable error each
(a ValueError carrying a distinct message, modelled by distinct BioErr
constructors, not a crash), any geography that contains an unknown terrain
character, or whose rows have unequal lengths, or whose border (first row,
last row, first column or last column) contains a non-Water cell; such a
layout never produces an Island.  The error kinds are distinguishable:
an unknown character always reports invalidCellType; with known characters,
unequal rows report unequalRows; with known characters and equal rows, a
bad border reports one of the four border errors. -/
theorem C8_island_construction_rejects (env : LandEnv) (geo : List (List Char)) :
    ((∃ c ∈ geo.flatten, cellChars.contains c = false) ∨
     (∃ r1 ∈ geo, ∃ r2 ∈ geo, List.length r1 ≠ List.length r2) ∨
     ((∃ c ∈ geo.headD [], c ≠ 'W') ∨ (∃ c ∈ geo.getLastD [], c ≠ 'W') ∨
      (∃ r ∈ geo, r.headD 'W' ≠ 'W') ∨ (∃ r ∈ geo, r.getLastD 'W' ≠ 'W')) →
      ∃ e, validate_map geo = .error e ∧ mkIsland env geo = .error e) ∧
    ((∃ c ∈ geo.flatten, cellChars.contains c = false) →
      ∃ c2, validate_map geo = .error (.invalidCellType c2)) ∧
    ((∀ c ∈ geo.flatten, cellChars.contains c = true) →
      (∃ r1 ∈ geo, ∃ r2 ∈ geo, List.length r1 ≠ List.length r2) →
      validate_map geo = .error .unequalRows) ∧
    ((∀ c ∈ geo.flatten, cellChars.contains c = true) →
      (∀ r1 ∈ geo, ∀ r2 ∈ geo, List.length r1 = List.length r2) →
      ((∃ c ∈ geo.headD [], c ≠ 'W') ∨ (∃ c ∈ geo.getLastD [], c ≠ 'W') ∨
       (∃ r ∈ geo, r.headD 'W' ≠ 'W') ∨ (∃ r ∈ geo, r.getLastD 'W' ≠ 'W')) →
      validate_map geo = .error .topRowNotWater ∨
      validate_map geo = .error .bottomRowNotWater ∨
      validate_map geo = .error .leftColNotWater ∨
      validate_map geo = .error .rightColNotWater) := by
  have hshape : (∀ c ∈ geo.flatten, cellChars.contains c = true) →
      (∃ r1 ∈ geo, ∃ r2 ∈ geo, List.length r1 ≠ List.length r2) →
      validate_map geo = .error .unequalRows := by
    intro hall hne
    rw [validate_map_goodchar geo hall]
    cases geo with
    | nil =>
      obtain ⟨r1, hr1, _⟩ := hne
      cases hr1
    | cons r0 rest =>
      obtain ⟨r1, hr1, r2, hr2, hne12⟩ := hne
      have hfail : rest.all (fun r => r.length = r0.length) = false := by
        refine Bool.eq_false_iff.mpr (fun hallen => hne12 ?_)
        have hres : ∀ r ∈ rest, r.length = r0.length := by
          intro r hr
          simpa using List.all_eq_true.mp hallen r hr
        have hlen : ∀ r ∈ r0 :: rest, r.length = r0.length := by
          intro r hr
          rcases List.mem_cons.mp hr with h | h
          · rw [h]
          · exact hres r h
        rw [hlen r1 hr1, hlen r2 hr2]
      rw [validate_shape, if_pos hfail]
  have hborder : (∀ c ∈ geo.flatten, cellChars.contains c = true) →
      (∀ r1 ∈ geo, ∀ r2 ∈ geo, List.length r1 = List.length r2) →
      ((∃ c ∈ geo.headD [], c ≠ 'W') ∨ (∃ c ∈ geo.getLastD [], c ≠ 'W') ∨
       (∃ r ∈ geo, r.headD 'W' ≠ 'W') ∨ (∃ r ∈ geo, r.getLastD 'W' ≠ 'W')) →
      validate_map geo = .error .topRowNotWater ∨
      validate_map geo = .error .bottomRowNotWater ∨
      validate_map geo = .error .leftColNotWater ∨
      validate_map geo = .error .rightColNotWater := by
    intro hall hleneq hb
    rw [validate_map_goodchar geo hall]
    cases geo with
    | nil =>
      exfalso
      rcases hb with ⟨c, hm, _⟩ | ⟨c, hm, _⟩ | ⟨r, hm, _⟩ | ⟨r, hm, _⟩
      · cases hm
      · cases hm
      · cases hm
      · cases hm
    | cons r0 rest =>
      have hlen : rest.all (fun r => r.length = r0.length) = true := by
        rw [List.all_eq_true]
        intro r hr
        simpa using hleneq r (List.mem_cons_of_mem r0 hr) r0 (List.mem_cons_self r0 rest)
      have hlenn : ¬ (rest.all (fun r => r.length = r0.length) = false) := by
        simp [hlen]
      by_cases h1 : allWater r0 = false
      · refine Or.inl ?_
        rw [validate_shape, if_neg hlenn, if_pos h1]
      · by_cases h2 : allWater ((r0 :: rest).getLastD []) = false
        · refine Or.inr (Or.inl ?_)
          rw [validate_shape, if_neg hlenn, if_neg h1, if_pos h2]
        · by_cases h3 : allWater ((r0 :: rest).map (fun r => r.headD ' ')) = false
          · refine Or.inr (Or.inr (Or.inl ?_))
            rw [validate_shape, if_neg hlenn, if_neg h1, if_neg h2, if_pos h3]
          · by_cases h4 : allWater ((r0 :: rest).map (fun r => r.getLastD ' ')) = false
            · refine Or.inr (Or.inr (Or.inr ?_))
              rw [validate_shape, if_neg hlenn, if_neg h1, if_neg h2, if_neg h3, if_pos h4]
            · exfalso
              have h1t : allWater r0 = true := eq_true_of_ne_false h1
              have h2t : allWater ((r0 :: rest).getLastD []) = true :=
                eq_true_of_ne_false h2
              have h3t : allWater ((r0 :: rest).map (fun r => r.headD ' ')) = true :=
                eq_true_of_ne_false h3
              have h4t : allWater ((r0 :: rest).map (fun r => r.getLastD ' ')) = true :=
                eq_true_of_ne_false h4
              rcases hb with ⟨c, hm, hc⟩ | ⟨c, hm, hc⟩ | ⟨r, hm, hc⟩ | ⟨r, hm, hc⟩
              · rw [allWater_eq_false_of_mem r0 c (by simpa using hm) hc] at h1t
                cases h1t
              · rw [allWater_eq_false_of_mem _ c (by simpa using hm) hc] at h2t
                cases h2t
              · cases hr : r with
                | nil =>
                  rw [hr] at hc
                  exact hc rfl
                | cons x xs =>
                  rw [hr] at hc
                  have hx : x ≠ 'W' := by simpa using hc
                  have hmm : x ∈ (r0 :: rest).map (fun r => r.headD ' ') :=
                    List.mem_map.mpr ⟨r, hm, by rw [hr]; rfl⟩
                  rw [allWater_eq_false_of_mem _ x hmm hx] at h3t
                  cases h3t
              · cases hr : r.getLast? with
                | none =>
                  rw [List.getLast?_eq_none_iff] at hr
                  rw [hr] at hc
                  exact hc rfl
                | some x =>
                  have hd1 : r.getLastD 'W' = x := by
                    rw [List.getLastD_eq_getLast?, hr]
                    rfl
                  have hd2 : r.getLastD ' ' = x := by
                    rw [List.getLastD_eq_getLast?, hr]
                    rfl
                  rw [hd1] at hc
                  have hmm : x ∈ (r0 :: rest).map (fun r => r.getLastD ' ') :=
                    List.mem_map.mpr ⟨r, hm, hd2⟩
                  rw [allWater_eq_false_of_mem _ x hmm hc] at h4t
                  cases h4t
  refine ⟨?_, validate_map_badchar geo, hshape, hborder⟩
  intro hviol
  have herr : ∀ e, validate_map geo = .error e → mkIsland env geo = .error e := by
    intro e he
    rw [mkIsland, he]
  by_cases hchar : ∃ c ∈ geo.flatten, cellChars.contains c = false
  · obtain ⟨c2, he⟩ := validate_map_badchar geo hchar
    exact ⟨.invalidCellType c2, he, herr _ he⟩
  · have hall : ∀ c ∈ geo.flatten, cellChars.contains c = true := by
      intro c hm
      by_contra hcc
      exact hchar ⟨c, hm, Bool.eq_false_iff.mpr hcc⟩
    rcases hviol with hc | hne | hb
    · exact absurd hc hchar
    · have he := hshape hall hne
      exact ⟨.unequalRows, he, herr _ he⟩
    · by_cases hrows : ∃ r1 ∈ geo, ∃ r2 ∈ geo, List.length r1 ≠ List.length r2
      · have he := hshape hall hrows
        exact ⟨.unequalRows, he, herr _ he⟩
      · have hleneq : ∀ r1 ∈ geo, ∀ r2 ∈ geo, List.length r1 = List.length r2 := by
          intro r1 h1 r2 h2
          by_contra hcc
          exact hrows ⟨r1, h1, r2, h2, hcc⟩
        rcases hborder hall hleneq hb with he | he | he | he
        · exact ⟨.topRowNotWater, he, herr _ he⟩
        · exact ⟨.bottomRowNotWater, he, herr _ he⟩
        · exact ⟨.leftColNotWater, he, herr _ he⟩
        · exact ⟨.rightColNotWater, he, herr _ he⟩

/-- Witness for C8 at a concrete input: the geography with rows WWW, WLLW,
WWW (known characters, unequal row lengths) is rejected with exactly the
unequal-rows error. -/
theorem C8_island_construction_rejects_witness :
    (∀ c ∈ ([['W','W','W'], ['W','L','L','W'], ['W','W','W']] :
        List (List Char)).flatten, cellChars.contains c = true) ∧
    (∃ r1 ∈ ([['W','W','W'], ['W','L','L','W'], ['W','W','W']] : List (List Char)),
      ∃ r2 ∈ ([['W','W','W'], ['W','L','L','W'], ['W','W','W']] : List (List Char)),
        List.length r1 ≠ List.length r2) ∧
    validate_map [['W','W','W'], ['W','L','L','W'], ['W','W','W']] =
      .error .unequalRows :=
  ⟨by decide, by decide,
   (C8_island_construction_rejects defaultLandEnv
     [['W','W','W'], ['W','L','L','W'], ['W','W','W']]).2.2.1 (by decide) (by decide)⟩

/-- Helper: updating one key leaves the binding of a different key alone. -/
theorem lookupCell_updateCell_ne (m : CellMap) (co co2 : Coord) (f : Cell → Cell)
    (hne : co ≠ co2) :
    lookupCell (updateCell m co2 f) co = lookupCell m co := by
  induction m with
  | nil => rfl
  | cons e rest ih =>
    rw [updateCell]
    by_cases h : e.1 = co2
    · rw [if_pos h]
      simp only [lookupCell]
      rw [List.find?_cons_of_neg _ (by simp [h]; exact fun hc => hne hc.symm),
        List.find?_cons_of_neg _ (by simp [h]; exact fun hc => hne hc.symm)]
    · rw [if_neg h]
      by_cases h2 : e.1 = co
      · simp only [lookupCell]
        rw [List.find?_cons_of_pos _ (by simpa using h2),
          List.find?_cons_of_pos _ (by simpa using h2)]
      · have := ih
        simp only [lookupCell] at this ⊢
        rw [List.find?_cons_of_neg _ (by simpa using h2),
          List.find?_cons_of_neg _ (by simpa using h2)]
        exact this

/-- Helper: updating a key rewrites its binding. -/
theorem lookupCell_updateCell_self (m : CellMap) (co : Coord) (f : Cell → Cell) :
    lookupCell (updateCell m co f) co = (lookupCell m co).map f := by
  induction m with
  | nil => rfl
  | cons e rest ih =>
    rw [updateCell]
    by_cases h : e.1 = co
    · rw [if_pos h]
      simp only [lookupCell]
      rw [List.find?_cons_of_pos _ (by simpa using h),
        List.find?_cons_of_pos _ (by simpa using h)]
      rfl
    · rw [if_neg h]
      have := ih
      simp only [lookupCell] at this ⊢
      rw [List.find?_cons_of_neg _ (by simpa using h),
        List.find?_cons_of_neg _ (by simpa using h)]
      exact this

/-- Helper: placing a list of animals at one location never modifies a water
cell (the add on water raises before any mutation). -/
theorem placeAnimalsAt_water_preserved (animals : List AnimalSpec) (m : CellMap)
    (loc : Coord) (wRaw : ℕ → ℚ) (kw : ℕ) (co : Coord) (c : Cell)
    (hco : lookupCell m co = some c) (hw : c.landtype = .water) :
    lookupCell ((placeAnimalsAt m loc wRaw kw animals).1) co = some c := by
  induction animals generalizing m kw with
  | nil => exact hco
  | cons a rest ih =>
    rw [placeAnimalsAt]
    split
    · exact hco
    · next cell hl =>
        split
        · exact hco
        · next cell2 ha =>
            by_cases heq : loc = co
            · exfalso
              subst heq
              rw [hco] at hl
              have hcell : cell = c := (Option.some.inj hl).symm
              rw [add_animal, if_pos (hcell ▸ hw)] at ha
              cases ha
            · refine ih (updateCell m loc (fun _ => cell2)) (kw + 1) ?_
              rw [lookupCell_updateCell_ne m co loc _ (fun hc => heq hc.symm)]
              exact hco

/-- Helper: place_animals never modifies a water cell. -/
theorem place_animals_water_preserved (pop : List (Coord × List AnimalSpec))
    (m : CellMap) (wRaw : ℕ → ℚ) (kw : ℕ) (co : Coord) (c : Cell)
    (hco : lookupCell m co = some c) (hw : c.landtype = .water) :
    lookupCell ((place_animals m wRaw kw pop).1) co = some c := by
  induction pop generalizing m kw with
  | nil => exact hco
  | cons item rest ih =>
    obtain ⟨loc, animals⟩ := item
    have hat := placeAnimalsAt_water_preserved animals m loc wRaw kw co c hco hw
    rw [place_animals]
    split
    · exact hat
    · exact ih (placeAnimalsAt m loc wRaw kw animals).1
        (placeAnimalsAt m loc wRaw kw animals).2.1 hat

/-- C9: placing an animal on a water (non-habitable) cell is rejected with
the distinguishable IllegalActionError, never a silent no-op: the cell's
add-animal operation raises it directly; Island.place_animals with a first
placement dictionary addressed at a water coordinate raises it and leaves
the island untouched; and however place_animals is called, every water
cell's populations (empty on every reachable state) stay exactly as they
were. -/
theorem C9_water_placement_rejected (m : CellMap) (wRaw : ℕ → ℚ) (kw : ℕ) :
    (∀ (c : Cell) (a : AnimalSpec) (w : ℚ), c.landtype = .water →
      add_animal c a w = .error .illegalAction) ∧
    (∀ (loc : Coord) (c : Cell) (a : AnimalSpec) (animals : List AnimalSpec)
        (rest : List (Coord × List AnimalSpec)),
      lookupCell m loc = some c → c.landtype = .water →
      place_animals m wRaw kw ((loc, a :: animals) :: rest) =
        (m, kw, some .illegalAction)) ∧
    (∀ (pop : List (Coord × List AnimalSpec)) (co : Coord) (c : Cell),
      lookupCell m co = some c → c.landtype = .water →
      lookupCell ((place_animals m wRaw kw pop).1) co = some c) := by
  refine ⟨?_, ?_, ?_⟩
  · intro c a w hwt
    rw [add_animal, if_pos hwt]
  · intro loc c a animals rest hco hwt
    have ha : add_animal c a (wRaw kw) = .error .illegalAction := by
      rw [add_animal, if_pos hwt]
    have h1 : placeAnimalsAt m loc wRaw kw (a :: animals) =
        (m, kw, some .illegalAction) := by
      simp only [placeAnimalsAt, hco, ha]
    rw [place_animals]
    simp only [h1]
  · intro pop co c hco hwt
    exact place_animals_water_preserved pop m wRaw kw co c hco hwt

/-- Witness for C9 at a concrete input: on the 3 by 3 island with a single
lowland interior cell, placing a herbivore at the water corner (1,1) raises
the illegal-action error and leaves the island untouched. -/
theorem C9_water_placement_rejected_witness :
    lookupCell (build_island defaultLandEnv [['W','W','W'], ['W','L','W'], ['W','W','W']])
      (1, 1) = some (mkCell defaultLandEnv .water) ∧
    (mkCell defaultLandEnv .water).landtype = .water ∧
    place_animals
      (build_island defaultLandEnv [['W','W','W'], ['W','L','W'], ['W','W','W']])
      (fun _ => 0) 0 [((1, 1), [AnimalSpec.mk "Herbivore" 5 (some 20)])] =
      (build_island defaultLandEnv [['W','W','W'], ['W','L','W'], ['W','W','W']],
       0, some .illegalAction) := by
  refine ⟨?_, rfl, ?_⟩
  · rfl
  · exact (C9_water_placement_rejected
      (build_island defaultLandEnv [['W','W','W'], ['W','L','W'], ['W','W','W']])
      (fun _ => 0) 0).2.1 (1, 1) (mkCell defaultLandEnv .water)
      (AnimalSpec.mk "Herbivore" 5 (some 20)) [] [] rfl rfl

/-- Helper: the birth loop is the map of give_birth over the enumerated
input list (updated mothers, in order) paired with the filterMap of the
produced newborns (in order of their mothers), every attempt using the same
population size n. -/
theorem birth_go_eq (p : AnimalParams) (Φ : FitFn) (bdraw wdraw : ℕ → ℚ)
    (n : ℕ) (l : List Animal) (k : ℕ) :
    birth_go p Φ bdraw wdraw n k l =
      ((List.enumFrom k l).map
        (fun ia => (give_birth p Φ ia.2 n (bdraw ia.1) (wdraw ia.1)).1),
       (List.enumFrom k l).filterMap
        (fun ia => (give_birth p Φ ia.2 n (bdraw ia.1) (wdraw ia.1)).2)) := by
  induction l generalizing k with
  | nil => rfl
  | cons a rest ih =>
    rw [birth_go, ih (k + 1)]
    simp only [List.enumFrom, List.map_cons, List.filterMap_cons]
    cases hg : (give_birth p Φ a n (bdraw k) (wdraw k)).2 with
    | none => simp [hg]
    | some child => simp [hg]

/-- C5: Cell.birth is a two-phase protocol for each species independently:
when the pre-phase count n of a species exceeds 1, every pre-existing agent
of that species attempts give_birth with exactly that pre-phase count n as
population size (the draw streams are indexed by the agent's position), and
the newborns are appended to the population only after all the updated
mothers, so no newborn counts toward any attempt's population size and no
newborn itself attempts to give birth this cycle; a species with count at
most 1 is untouched. -/
theorem C5_cell_birth_two_phase (pH pC : AnimalParams) (Φ : FitFn)
    (bdH wdH bdC wdC : ℕ → ℚ) (c : Cell) :
    cell_birth pH pC Φ bdH wdH bdC wdC c =
      { c with
        herbivores :=
          if 1 < c.herbivores.length then
            (List.enumFrom 0 c.herbivores).map
              (fun ia =>
                (give_birth pH Φ ia.2 c.herbivores.length (bdH ia.1) (wdH ia.1)).1) ++
            (List.enumFrom 0 c.herbivores).filterMap
              (fun ia =>
                (give_birth pH Φ ia.2 c.herbivores.length (bdH ia.1) (wdH ia.1)).2)
          else c.herbivores,
        carnivores :=
          if 1 < c.carnivores.length then
            (List.enumFrom 0 c.carnivores).map
              (fun ia =>
                (give_birth pC Φ ia.2 c.carnivores.length (bdC ia.1) (wdC ia.1)).1) ++
            (List.enumFrom 0 c.carnivores).filterMap
              (fun ia =>
                (give_birth pC Φ ia.2 c.carnivores.length (bdC ia.1) (wdC ia.1)).2)
          else c.carnivores } := by
  rw [cell_birth]
  by_cases hh : 1 < c.herbivores.length
  · rw [if_pos hh]
    simp only [birth_go_eq]
    by_cases hc : 1 < c.carnivores.length
    · rw [if_pos hc, if_pos hh, if_pos hc]
    · rw [if_neg hc, if_pos hh, if_neg hc]
  · rw [if_neg hh]
    by_cases hc : 1 < c.carnivores.length
    · rw [if_pos hc, if_neg hh, if_pos hc]
      simp only [birth_go_eq]
    · rw [if_neg hc, if_neg hh, if_neg hc]

/-- Helper: the cell built for a known position of a row. -/
theorem lookupCell_buildRow_pos (env : LandEnv) (i : ℤ) (row : List Char) :
    ∀ (j0 : ℤ) (t : ℕ) (ch : Char), row[t]? = some ch →
      lookupCell (buildRow env i j0 row) (i, j0 + t) = some (mkCell env (charLand ch)) := by
  induction row with
  | nil =>
    intro j0 t ch h
    simp at h
  | cons c0 rest ih =>
    intro j0 t ch h
    cases t with
    | zero =>
      have hc : c0 = ch := by simpa using h
      subst hc
      rw [buildRow]
      simp only [lookupCell]
      rw [List.find?_cons_of_pos _ (by simp)]
    | succ t2 =>
      have h2 : rest[t2]? = some ch := by simpa using h
      have := ih (j0 + 1) t2 ch h2
      rw [buildRow]
      simp only [lookupCell] at this ⊢
      rw [List.find?_cons_of_neg _ (by simp; omega)]
      have harith : j0 + 1 + (t2 : ℤ) = j0 + ((t2 : ℤ) + 1) := by omega
      rw [harith] at this
      simpa using this

/-- Helper: the keys of one built row are exactly the positions of the
row. -/
theorem lookupCell_buildRow_isSome (env : LandEnv) (i : ℤ) (row : List Char) :
    ∀ (j0 : ℤ) (co : Coord), (lookupCell (buildRow env i j0 row) co).isSome = true ↔
      (co.1 = i ∧ j0 ≤ co.2 ∧ co.2 < j0 + row.length) := by
  induction row with
  | nil =>
    intro j0 co
    constructor
    · intro h
      simp [buildRow, lookupCell] at h
    · intro ⟨_, h1, h2⟩
      simp at h2
      omega
  | cons c0 rest ih =>
    intro j0 co
    rw [buildRow]
    by_cases he : co = ((i, j0) : Coord)
    · subst he
      constructor
      · intro _
        refine ⟨rfl, le_refl _, ?_⟩
        have hlen1 : ((c0 :: rest).length : ℤ) = (rest.length : ℤ) + 1 := by simp
        omega
      · intro _
        simp only [lookupCell]
        rw [List.find?_cons_of_pos _ (by simp)]
        rfl
    · have hstep : (lookupCell (((i, j0), mkCell env (charLand c0)) ::
          buildRow env i (j0 + 1) rest) co).isSome =
          (lookupCell (buildRow env i (j0 + 1) rest) co).isSome := by
        simp only [lookupCell]
        rw [List.find?_cons_of_neg _ (by simpa using fun hc => he (by simp [hc.symm]))]
      rw [hstep, ih (j0 + 1) co]
      constructor
      · intro ⟨h1, h2, h3⟩
        refine ⟨h1, by omega, by simp; omega⟩
      · intro ⟨h1, h2, h3⟩
        have hne : co.2 ≠ j0 := by
          intro hc
          exact he (Prod.ext h1 hc)
        simp at h3
        refine ⟨h1, by omega, by omega⟩

/-- Helper: the cell built for a known position of the geography. -/
theorem lookupCell_buildRows_pos (env : LandEnv) (geo : List (List Char)) :
    ∀ (i0 : ℤ) (s : ℕ) (row : List Char), geo[s]? = some row →
      ∀ (t : ℕ) (ch : Char), row[t]? = some ch →
        lookupCell (buildRows env i0 geo) (i0 + s, 1 + t) =
          some (mkCell env (charLand ch)) := by
  induction geo with
  | nil =>
    intro i0 s row h
    simp at h
  | cons r0 rest ih =>
    intro i0 s row hrow t ch hch
    rw [buildRows]
    have happ : ∀ co : Coord, lookupCell (buildRow env i0 1 r0 ++ buildRows env (i0 + 1) rest) co =
        ((lookupCell (buildRow env i0 1 r0) co).or
          (lookupCell (buildRows env (i0 + 1) rest) co)) := by
      intro co
      simp only [lookupCell]
      rw [List.find?_append]
      cases List.find? (fun e => e.1 = co) (buildRow env i0 1 r0) with
      | none => rfl
      | some e => rfl
    cases s with
    | zero =>
      have hr : r0 = row := by simpa using hrow
      subst hr
      rw [happ]
      simp only [Nat.cast_zero, add_zero]
      rw [lookupCell_buildRow_pos env i0 r0 1 t ch hch]
      rfl
    | succ s2 =>
      have hrow2 : rest[s2]? = some row := by simpa using hrow
      have hleft : (lookupCell (buildRow env i0 1 r0) (i0 + (s2 + 1 : ℕ), 1 + t)).isSome = false := by
        rw [Bool.eq_false_iff]
        intro hc
        have := (lookupCell_buildRow_isSome env i0 r0 1 (i0 + (s2 + 1 : ℕ), 1 + t)).mp hc
        have h1 := this.1
        simp at h1
        omega
      have hnone : lookupCell (buildRow env i0 1 r0) (i0 + ((s2 + 1 : ℕ) : ℤ), 1 + (t : ℤ)) =
          none := Option.not_isSome_iff_eq_none.mp
            (fun hc => by rw [hleft] at hc; cases hc)
      rw [happ, hnone]
      have := ih (i0 + 1) s2 row hrow2 t ch hch
      have harith : i0 + 1 + (s2 : ℤ) = i0 + ((s2 : ℤ) + 1) := by omega
      rw [harith] at this
      simpa using this

/-- Helper: on a geography whose rows all have length C, the keys of the
built map are exactly the box [i0, i0 + rows) x [1, 1 + C). -/
theorem lookupCell_buildRows_isSome (env : LandEnv) (geo : List (List Char)) (C : ℕ)
    (hC : ∀ r ∈ geo, r.length = C) :
    ∀ (i0 : ℤ) (co : Coord), (lookupCell (buildRows env i0 geo) co).isSome = true ↔
      (i0 ≤ co.1 ∧ co.1 < i0 + geo.length ∧ 1 ≤ co.2 ∧ co.2 < 1 + C) := by
  induction geo with
  | nil =>
    intro i0 co
    constructor
    · intro h
      simp [buildRows, lookupCell] at h
    · intro ⟨h1, h2, _⟩
      simp at h2
      omega
  | cons r0 rest ih =>
    intro i0 co
    rw [buildRows]
    have happ : lookupCell (buildRow env i0 1 r0 ++ buildRows env (i0 + 1) rest) co =
        ((lookupCell (buildRow env i0 1 r0) co).or
          (lookupCell (buildRows env (i0 + 1) rest) co)) := by
      simp only [lookupCell]
      rw [List.find?_append]
      cases List.find? (fun e => e.1 = co) (buildRow env i0 1 r0) with
      | none => rfl
      | some e => rfl
    rw [happ, Option.isSome_or]
    rw [Bool.or_eq_true, lookupCell_buildRow_isSome env i0 r0 1 co,
      ih (fun r hr => hC r (List.mem_cons_of_mem r0 hr)) (i0 + 1) co]
    have hr0 : r0.length = C := hC r0 (List.mem_cons_self r0 rest)
    rw [hr0]
    constructor
    · rintro (⟨h1, h2, h3⟩ | ⟨h1, h2, h3, h4⟩)
      · refine ⟨by omega, by simp; omega, h2, h3⟩
      · refine ⟨by omega, by simp at h2 ⊢; omega, h3, h4⟩
    · rintro ⟨h1, h2, h3, h4⟩
      by_cases hrow : co.1 = i0
      · exact Or.inl ⟨hrow, h3, h4⟩
      · refine Or.inr ⟨by omega, by simp at h2 ⊢; omega, h3, h4⟩

/-- Helper: a passing shape-and-border validation yields its five component
facts. -/
theorem validate_shape_ok_facts (r0 : List Char) (rest : List (List Char))
    (hok : validate_shape (r0 :: rest) = .ok ()) :
    rest.all (fun r => r.length = r0.length) = true ∧
    allWater r0 = true ∧
    allWater ((r0 :: rest).getLastD []) = true ∧
    allWater ((r0 :: rest).map (fun r => r.headD ' ')) = true ∧
    allWater ((r0 :: rest).map (fun r => r.getLastD ' ')) = true := by
  rw [validate_shape] at hok
  by_cases h1 : rest.all (fun r => r.length = r0.length) = false
  · rw [if_pos h1] at hok
    cases hok
  · rw [if_neg h1] at hok
    by_cases h2 : allWater r0 = false
    · rw [if_pos h2] at hok
      cases hok
    · rw [if_neg h2] at hok
      by_cases h3 : allWater ((r0 :: rest).getLastD []) = false
      · rw [if_pos h3] at hok
        cases hok
      · rw [if_neg h3] at hok
        by_cases h4 : allWater ((r0 :: rest).map (fun r => r.headD ' ')) = false
        · rw [if_pos h4] at hok
          cases hok
        · rw [if_neg h4] at hok
          by_cases h5 : allWater ((r0 :: rest).map (fun r => r.getLastD ' ')) = false
          · rw [if_pos h5] at hok
            cases hok
          · exact ⟨eq_true_of_ne_false h1, eq_true_of_ne_false h2,
              eq_true_of_ne_false h3, eq_true_of_ne_false h4, eq_true_of_ne_false h5⟩

/-- Helper: a passing full validation passes the shape validation. -/
theorem validate_map_ok_shape (geo : List (List Char))
    (hok : validate_map geo = .ok ()) : validate_shape geo = .ok () := by
  rw [validate_map.eq_def] at hok
  cases hf : geo.flatten.find? (fun c => !cellChars.contains c) with
  | some c =>
    rw [hf] at hok
    cases hok
  | none =>
    rw [hf] at hok
    exact hok

/-- Helper: all water implies every member is the water character. -/
theorem allWater_all (l : List Char) (h : allWater l = true) :
    ∀ c ∈ l, c = 'W' := by
  intro c hm
  rw [allWater, Bool.and_eq_true] at h
  simpa using List.all_eq_true.mp h.2 c hm

/-- C10: on every island that passes validate_map, every cardinal neighbour
coordinate of every habitable cell is itself a key of the built island map:
the all-water border forces habitable cells to be interior, so the
island_map[new_coord] lookup inside migrate() is total and the off-grid case
can never raise a lookup error during migration. -/
theorem C10_habitable_neighbours_in_map (env : LandEnv) (geo : List (List Char))
    (hok : validate_map geo = .ok ()) :
    ∀ (co : Coord) (cell : Cell),
      lookupCell (build_island env geo) co = some cell → cell.is_habitable = true →
      ∀ d : Dir, (lookupCell (build_island env geo) (moveCoord co d)).isSome = true := by
  intro co cell hco hhab d
  have hshape := validate_map_ok_shape geo hok
  cases hg : geo with
  | nil =>
    rw [hg] at hshape
    cases hshape
  | cons r0 rest =>
    subst hg
    obtain ⟨hlen, htop, hbot, hleft, hright⟩ := validate_shape_ok_facts r0 rest hshape
    have hC : ∀ r ∈ r0 :: rest, r.length = r0.length := by
      intro r hr
      rcases List.mem_cons.mp hr with h | h
      · rw [h]
      · simpa using List.all_eq_true.mp hlen r h
    have hCpos : 0 < r0.length := by
      have hne : r0 ≠ [] := by
        intro hc
        rw [hc] at htop
        simp [allWater] at htop
      exact List.length_pos.mpr hne
    have hbounds := (lookupCell_buildRows_isSome env (r0 :: rest) r0.length hC 1 co).mp
      (by rw [show build_island env (r0 :: rest) = buildRows env 1 (r0 :: rest) from rfl] at hco
          rw [hco]
          rfl)
    obtain ⟨hb1, hb2, hb3, hb4⟩ := hbounds
    set R := (r0 :: rest).length with hR
    set C := r0.length with hCdef
    -- recover the character at the habitable position
    have hs : ((co.1 - 1).toNat : ℤ) = co.1 - 1 := Int.toNat_of_nonneg (by omega)
    have ht : ((co.2 - 1).toNat : ℤ) = co.2 - 1 := Int.toNat_of_nonneg (by omega)
    have hslt : (co.1 - 1).toNat < R := by omega
    have htlt : (co.2 - 1).toNat < C := by omega
    obtain ⟨row, hrow⟩ : ∃ row, (r0 :: rest)[(co.1 - 1).toNat]? = some row := by
      rw [List.getElem?_eq_getElem (by omega)]
      exact ⟨_, rfl⟩
    have hrowlen : row.length = C := hC row (List.getElem?_mem hrow)
    obtain ⟨ch, hch⟩ : ∃ ch, row[(co.2 - 1).toNat]? = some ch := by
      rw [List.getElem?_eq_getElem (by omega)]
      exact ⟨_, rfl⟩
    have hval := lookupCell_buildRows_pos env (r0 :: rest) 1 (co.1 - 1).toNat row hrow
      (co.2 - 1).toNat ch hch
    have hcoeq : ((1 + ((co.1 - 1).toNat : ℤ), 1 + ((co.2 - 1).toNat : ℤ)) : Coord) = co := by
      rw [hs, ht]
      refine Prod.ext ?_ ?_ <;> simp
    rw [hcoeq] at hval
    rw [show build_island env (r0 :: rest) = buildRows env 1 (r0 :: rest) from rfl] at hco
    rw [hco] at hval
    have hcell : cell = mkCell env (charLand ch) := Option.some.inj hval
    have hchW : ch ≠ 'W' := by
      intro hc
      subst hc
      rw [hcell] at hhab
      simp [mkCell, charLand] at hhab
    -- the habitable cell is interior
    have hrow1 : co.1 ≠ 1 := by
      intro hc
      have h0 : (co.1 - 1).toNat = 0 := by omega
      rw [h0] at hrow
      have : r0 = row := by simpa using hrow
      subst this
      exact hchW (allWater_all r0 htop ch (List.getElem?_mem hch))
    have hrowR : co.1 ≠ R := by
      intro hc
      have h0 : (co.1 - 1).toNat = R - 1 := by omega
      rw [h0] at hrow
      have hlast : (r0 :: rest).getLast? = some row := by
        rw [List.getLast?_eq_getElem?]
        rw [show (r0 :: rest).length - 1 = R - 1 from by rw [hR]]
        exact hrow
      have : (r0 :: rest).getLastD [] = row := by
        rw [List.getLastD_eq_getLast?, hlast]
        rfl
      rw [← this] at hch
      exact hchW (allWater_all _ hbot ch (List.getElem?_mem hch))
    have hcol1 : co.2 ≠ 1 := by
      intro hc
      have h0 : (co.2 - 1).toNat = 0 := by omega
      rw [h0] at hch
      have hh : row.headD ' ' = ch := by
        rw [List.headD_eq_head?_getD, List.head?_eq_getElem?, hch]
        rfl
      have hmm : ch ∈ (r0 :: rest).map (fun r => r.headD ' ') :=
        List.mem_map.mpr ⟨row, List.getElem?_mem hrow, hh⟩
      exact hchW (allWater_all _ hleft ch hmm)
    have hcolC : co.2 ≠ C := by
      intro hc
      have h0 : (co.2 - 1).toNat = C - 1 := by omega
      rw [h0] at hch
      have hh : row.getLastD ' ' = ch := by
        rw [List.getLastD_eq_getLast?, List.getLast?_eq_getElem?, hrowlen]
        rw [hch]
        rfl
      have hmm : ch ∈ (r0 :: rest).map (fun r => r.getLastD ' ') :=
        List.mem_map.mpr ⟨row, List.getElem?_mem hrow, hh⟩
      exact hchW (allWater_all _ hright ch hmm)
    -- every neighbour is inside the box
    rw [show build_island env (r0 :: rest) = buildRows env 1 (r0 :: rest) from rfl]
    rw [lookupCell_buildRows_isSome env (r0 :: rest) C hC 1 (moveCoord co d)]
    cases d with
    | up =>
      simp only [moveCoord, Dir.offset]
      refine ⟨by omega, by omega, by omega, by omega⟩
    | down =>
      simp only [moveCoord, Dir.offset]
      refine ⟨by omega, by omega, by omega, by omega⟩
    | left =>
      simp only [moveCoord, Dir.offset]
      refine ⟨by omega, by omega, by omega, by omega⟩
    | right =>
      simp only [moveCoord, Dir.offset]
      refine ⟨by omega, by omega, by omega, by omega⟩

/-- Witness for C10 at a concrete input: on the validated 3 by 3 island
with lowland interior (2,2), all four neighbours of (2,2) are keys of the
map. -/
theorem C10_habitable_neighbours_in_map_witness :
    validate_map [['W','W','W'], ['W','L','W'], ['W','W','W']] = .ok () ∧
    lookupCell (build_island defaultLandEnv [['W','W','W'], ['W','L','W'], ['W','W','W']])
      ((2, 2) : Coord) = some (mkCell defaultLandEnv .lowland) ∧
    (mkCell defaultLandEnv .lowland).is_habitable = true ∧
    ∀ d : Dir,
      (lookupCell (build_island defaultLandEnv [['W','W','W'], ['W','L','W'], ['W','W','W']])
        (moveCoord ((2, 2) : Coord) d)).isSome = true :=
  ⟨rfl, rfl, rfl,
   C10_habitable_neighbours_in_map defaultLandEnv
     [['W','W','W'], ['W','L','W'], ['W','W','W']] rfl ((2, 2) : Coord)
     (mkCell defaultLandEnv .lowland) rfl rfl⟩

/-- Helper: placing an animal adds it to the cell contents. -/
theorem cellAnimals_place (c : Cell) (a : Animal) :
    cellAnimals (place_animal c a) = a ::ₘ cellAnimals c := by
  rw [place_animal]
  by_cases h : a.species = .herbivore
  · rw [if_pos h]
    show ((c.herbivores ++ [a] : List Animal) : Multiset Animal) + ↑c.carnivores =
      a ::ₘ (↑c.herbivores + ↑c.carnivores)
    rw [show ((c.herbivores ++ [a] : List Animal) : Multiset Animal) =
      ↑c.herbivores + {a} from rfl]
    rw [← Multiset.singleton_add]
    abel
  · rw [if_neg h]
    show (↑c.herbivores : Multiset Animal) + ↑(c.carnivores ++ [a]) =
      a ::ₘ (↑c.herbivores + ↑c.carnivores)
    rw [show ((c.carnivores ++ [a] : List Animal) : Multiset Animal) =
      ↑c.carnivores + {a} from rfl]
    rw [← Multiset.singleton_add]
    abel

/-- Helper: removing a present animal from a species-consistent cell takes
exactly one copy of it out of the cell contents. -/
theorem cellAnimals_remove (c : Cell) (a : Animal) (hok : speciesOk c)
    (hm : a ∈ cellAnimals c) :
    cellAnimals (remove_animal c a) + {a} = cellAnimals c := by
  rw [remove_animal]
  have hmem : a ∈ c.herbivores ∨ a ∈ c.carnivores := by
    rw [cellAnimals, Multiset.mem_add] at hm
    simpa using hm
  by_cases h : a.species = .herbivore
  · rw [if_pos h]
    have hherb : a ∈ c.herbivores := by
      rcases hmem with h1 | h1
      · exact h1
      · exact absurd (hok.2 a h1) (by rw [h]; simp)
    have hco : (c.herbivores : Multiset Animal) = a ::ₘ ↑(c.herbivores.erase a) :=
      Multiset.coe_eq_coe.mpr (List.perm_cons_erase hherb)
    show (↑(c.herbivores.erase a) : Multiset Animal) + ↑c.carnivores + {a} =
      ↑c.herbivores + ↑c.carnivores
    rw [hco, ← Multiset.singleton_add]
    abel
  · rw [if_neg h]
    have hcarn : a ∈ c.carnivores := by
      rcases hmem with h1 | h1
      · exact absurd (hok.1 a h1) h
      · exact h1
    have hco : (c.carnivores : Multiset Animal) = a ::ₘ ↑(c.carnivores.erase a) :=
      Multiset.coe_eq_coe.mpr (List.perm_cons_erase hcarn)
    show (↑c.herbivores : Multiset Animal) + ↑(c.carnivores.erase a) + {a} =
      ↑c.herbivores + ↑c.carnivores
    rw [hco, ← Multiset.singleton_add]
    abel

/-- Helper: place and remove keep the habitability flag and the terrain. -/
theorem place_animal_flags (c : Cell) (a : Animal) :
    (place_animal c a).is_habitable = c.is_habitable ∧
    (place_animal c a).landtype = c.landtype := by
  rw [place_animal]
  by_cases h : a.species = .herbivore
  · rw [if_pos h]
    exact ⟨rfl, rfl⟩
  · rw [if_neg h]
    exact ⟨rfl, rfl⟩

/-- Helper: remove keeps the habitability flag and the terrain. -/
theorem remove_animal_flags (c : Cell) (a : Animal) :
    (remove_animal c a).is_habitable = c.is_habitable ∧
    (remove_animal c a).landtype = c.landtype := by
  rw [remove_animal]
  by_cases h : a.species = .herbivore
  · rw [if_pos h]
    exact ⟨rfl, rfl⟩
  · rw [if_neg h]
    exact ⟨rfl, rfl⟩

/-- Helper: place keeps species consistency. -/
theorem speciesOk_place (c : Cell) (a : Animal) (hok : speciesOk c) :
    speciesOk (place_animal c a) := by
  rw [place_animal]
  by_cases h : a.species = .herbivore
  · rw [if_pos h]
    refine ⟨?_, hok.2⟩
    intro b hb
    rcases List.mem_append.mp hb with h1 | h1
    · exact hok.1 b h1
    · rw [List.mem_singleton.mp h1, h]
  · rw [if_neg h]
    refine ⟨hok.1, ?_⟩
    intro b hb
    rcases List.mem_append.mp hb with h1 | h1
    · exact hok.2 b h1
    · rw [List.mem_singleton.mp h1]
      cases hs : a.species with
      | herbivore => exact absurd hs h
      | carnivore => rfl

/-- Helper: remove keeps species consistency. -/
theorem speciesOk_remove (c : Cell) (a : Animal) (hok : speciesOk c) :
    speciesOk (remove_animal c a) := by
  rw [remove_animal]
  by_cases h : a.species = .herbivore
  · rw [if_pos h]
    exact ⟨fun b hb => hok.1 b (List.erase_subset a c.herbivores hb), hok.2⟩
  · rw [if_neg h]
    exact ⟨hok.1, fun b hb => hok.2 b (List.erase_subset a c.carnivores hb)⟩

/-- Helper: a neighbouring coordinate is never the coordinate itself. -/
theorem moveCoord_ne (co : Coord) (d : Dir) : moveCoord co d ≠ co := by
  cases d <;> simp [moveCoord, Dir.offset, Prod.ext_iff]

/-- Helper: updating a cell does not change the key list of the map. -/
theorem updateCell_keys (m : CellMap) (co : Coord) (f : Cell → Cell) :
    (updateCell m co f).map Prod.fst = m.map Prod.fst := by
  induction m with
  | nil => rfl
  | cons e rest ih =>
    rw [updateCell]
    by_cases h : e.1 = co
    · rw [if_pos h]
      rfl
    · rw [if_neg h]
      simpa using ih

/-- Helper: the head contribution of habAnimals. -/
theorem habAnimals_cons (e : Coord × Cell) (rest : CellMap) :
    habAnimals (e :: rest) =
      if e.2.is_habitable = true then cellAnimals e.2 + habAnimals rest
      else habAnimals rest := by
  rw [habAnimals, habAnimals, List.filter_cons]
  by_cases h : e.2.is_habitable = true
  · rw [if_pos (by simpa using h), if_pos h]
    rfl
  · rw [if_neg (by simpa using h), if_neg h]

/-- Helper: the habitable animal count is the cardinality of the habitable
animal multiset. -/
theorem num_animals_eq_card (m : CellMap) :
    num_animals m = Multiset.card (habAnimals m) := by
  rw [num_animals, habAnimals]
  induction m.filter (fun e => e.2.is_habitable) with
  | nil => rfl
  | cons e rest ih =>
    rw [List.map_cons, List.map_cons, List.sum_cons, List.sum_cons, Multiset.card_add, ih]
    have hcc : Multiset.card (cellAnimals e.2) = cellNumAnimals e.2 := by
      rw [cellAnimals, cellNumAnimals, Multiset.card_add]
      rfl
    rw [hcc]

/-- Helper: the effect of a cell update on the habitable animal multiset,
for updates that keep the habitability flag. -/
theorem habAnimals_update (m : CellMap) (co : Coord) (f : Cell → Cell) (c : Cell)
    (hc : lookupCell m co = some c) (hf : (f c).is_habitable = c.is_habitable) :
    (c.is_habitable = true →
      habAnimals (updateCell m co f) + cellAnimals c =
        habAnimals m + cellAnimals (f c)) ∧
    (c.is_habitable = false → habAnimals (updateCell m co f) = habAnimals m) := by
  induction m with
  | nil =>
    rw [lookupCell] at hc
    cases hc
  | cons e rest ih =>
    rw [updateCell]
    by_cases h : e.1 = co
    · rw [if_pos h]
      have hcel : e.2 = c := by
        rw [lookupCell, List.find?_cons_of_pos _ (by simpa using h)] at hc
        exact Option.some.inj hc
      subst hcel
      constructor
      · intro hh
        rw [habAnimals_cons, habAnimals_cons]
        simp only
        rw [if_pos (by rw [hf]; exact hh), if_pos hh]
        abel
      · intro hh
        rw [habAnimals_cons, habAnimals_cons]
        simp only
        rw [if_neg (by rw [hf, hh]; simp), if_neg (by rw [hh]; simp)]
    · rw [if_neg h]
      have hc2 : lookupCell rest co = some c := by
        rw [lookupCell, List.find?_cons_of_neg _ (by simpa using h)] at hc
        exact hc
      have ih2 := ih hc2
      constructor
      · intro hh
        rw [habAnimals_cons, habAnimals_cons]
        by_cases he : e.2.is_habitable = true
        · rw [if_pos he, if_pos he, add_assoc, add_assoc, ih2.1 hh]
        · rw [if_neg he, if_neg he, ih2.1 hh]
      · intro hh
        rw [habAnimals_cons, habAnimals_cons]
        by_cases he : e.2.is_habitable = true
        · rw [if_pos he, if_pos he, ih2.2 hh]
        · rw [if_neg he, if_neg he, ih2.2 hh]

/-- Helper: a successful lookup is a member of the map. -/
theorem lookupCell_mem (m : CellMap) (co : Coord) (c : Cell)
    (h : lookupCell m co = some c) : ((co, c) : Coord × Cell) ∈ m := by
  rw [lookupCell] at h
  cases hf : m.find? (fun e => e.1 = co) with
  | none =>
    rw [hf] at h
    cases h
  | some e =>
    rw [hf] at h
    have he := List.mem_of_find?_eq_some hf
    have hp := List.find?_some hf
    have h1 : e.1 = co := by simpa using hp
    have h2 : e.2 = c := Option.some.inj h
    rwa [show e = (co, c) from Prod.ext h1 h2] at he

/-- Helper: a member of an updated map is a member of the map or the update
of one. -/
theorem mem_updateCell (m : CellMap) (co : Coord) (f : Cell → Cell)
    (e2 : Coord × Cell) (hm : e2 ∈ updateCell m co f) :
    e2 ∈ m ∨ ∃ e ∈ m, e2 = (e.1, f e.2) := by
  induction m with
  | nil => cases hm
  | cons e rest ih =>
    rw [updateCell] at hm
    by_cases h : e.1 = co
    · rw [if_pos h] at hm
      rcases List.mem_cons.mp hm with h1 | h1
      · exact Or.inr ⟨e, List.mem_cons_self e rest, h1⟩
      · exact Or.inl (List.mem_cons_of_mem e h1)
    · rw [if_neg h] at hm
      rcases List.mem_cons.mp hm with h1 | h1
      · exact Or.inl (List.mem_cons.mpr (Or.inl h1))
      · rcases ih h1 with h2 | ⟨e3, he3, hh⟩
        · exact Or.inl (List.mem_cons_of_mem e h2)
        · exact Or.inr ⟨e3, List.mem_cons_of_mem e he3, hh⟩

/-- Helper: species consistency survives an update that keeps it. -/
theorem speciesConsistent_update (m : CellMap) (co : Coord) (f : Cell → Cell)
    (hsp : speciesConsistent m) (hf : ∀ c, speciesOk c → speciesOk (f c)) :
    speciesConsistent (updateCell m co f) := by
  intro e2 he2
  rcases mem_updateCell m co f e2 he2 with h | ⟨e, he, hh⟩
  · exact hsp e2 h
  · rw [hh]
    exact hf e.2 (hsp e he)

/-- Helper: a flag-preserving update keeps every habitability flag of the
map. -/
theorem flags_update (m : CellMap) (co : Coord) (f : Cell → Cell)
    (hf : ∀ c, (f c).is_habitable = c.is_habitable) (co2 : Coord) :
    (lookupCell (updateCell m co f) co2).map Cell.is_habitable =
      (lookupCell m co2).map Cell.is_habitable := by
  by_cases h : co2 = co
  · subst h
    rw [lookupCell_updateCell_self]
    cases lookupCell m co2 with
    | none => rfl
    | some c =>
      simp [hf c]
  · rw [lookupCell_updateCell_ne m co2 co f h]

/-- Helper: the animals at an updated coordinate. -/
theorem animalsAt_update_self (m : CellMap) (co : Coord) (f : Cell → Cell)
    (c : Cell) (hc : lookupCell m co = some c) :
    animalsAt (updateCell m co f) co = cellAnimals (f c) := by
  rw [animalsAt, lookupCell_updateCell_self, hc]
  rfl

/-- Helper: the animals at any other coordinate are untouched. -/
theorem animalsAt_update_ne (m : CellMap) (co co2 : Coord) (f : Cell → Cell)
    (hne : co2 ≠ co) :
    animalsAt (updateCell m co f) co2 = animalsAt m co2 := by
  rw [animalsAt, animalsAt, lookupCell_updateCell_ne m co2 co f hne]

/-- Helper: the complete effect of one migration move (place the animal
into the habitable destination, then remove it from the habitable origin):
the habitable animal multiset is conserved, the animal moves from origin to
destination, every other coordinate is untouched, and species consistency,
all habitability flags, the key list and the non-habitable cells are
preserved. -/
theorem move_master (m : CellMap) (f0 t0 : Coord) (a : Animal)
    (hne : t0 ≠ f0) (ct : Cell) (hct : lookupCell m t0 = some ct)
    (hctH : ct.is_habitable = true)
    (cf : Cell) (hcf : lookupCell m f0 = some cf) (hcfH : cf.is_habitable = true)
    (hmem : a ∈ animalsAt m f0) (hsp : speciesConsistent m) :
    habAnimals (updateCell (updateCell m t0 (fun c => place_animal c a))
        f0 (fun c => remove_animal c a)) = habAnimals m ∧
    animalsAt (updateCell (updateCell m t0 (fun c => place_animal c a))
        f0 (fun c => remove_animal c a)) f0 + {a} = animalsAt m f0 ∧
    animalsAt (updateCell (updateCell m t0 (fun c => place_animal c a))
        f0 (fun c => remove_animal c a)) t0 = a ::ₘ animalsAt m t0 ∧
    (∀ co2, co2 ≠ f0 → co2 ≠ t0 →
      animalsAt (updateCell (updateCell m t0 (fun c => place_animal c a))
        f0 (fun c => remove_animal c a)) co2 = animalsAt m co2) ∧
    speciesConsistent (updateCell (updateCell m t0 (fun c => place_animal c a))
        f0 (fun c => remove_animal c a)) ∧
    (∀ co2, (lookupCell (updateCell (updateCell m t0 (fun c => place_animal c a))
        f0 (fun c => remove_animal c a)) co2).map Cell.is_habitable =
      (lookupCell m co2).map Cell.is_habitable) ∧
    (updateCell (updateCell m t0 (fun c => place_animal c a))
        f0 (fun c => remove_animal c a)).map Prod.fst = m.map Prod.fst ∧
    (∀ co2 c, lookupCell m co2 = some c → c.is_habitable = false →
      lookupCell (updateCell (updateCell m t0 (fun c => place_animal c a))
        f0 (fun c => remove_animal c a)) co2 = some c) := by
  have hcfok : speciesOk cf := hsp (f0, cf) (lookupCell_mem m f0 cf hcf)
  have hmem2 : a ∈ cellAnimals cf := by
    rw [animalsAt, hcf] at hmem
    exact hmem
  have hl1f : lookupCell (updateCell m t0 (fun c => place_animal c a)) f0 = some cf := by
    rw [lookupCell_updateCell_ne m f0 t0 _ (fun hc => hne hc.symm)]
    exact hcf
  have hrem := cellAnimals_remove cf a hcfok hmem2
  refine ⟨?_, ?_, ?_, ?_, ?_, ?_, ?_, ?_⟩
  · have h1 := (habAnimals_update m t0 (fun c => place_animal c a) ct hct
      (place_animal_flags ct a).1).1 hctH
    rw [cellAnimals_place] at h1
    have h1b : habAnimals (updateCell m t0 (fun c => place_animal c a)) =
        habAnimals m + {a} := by
      have := h1
      rw [← Multiset.singleton_add, ← add_assoc] at this
      exact add_right_cancel this
    have h2 := (habAnimals_update (updateCell m t0 (fun c => place_animal c a)) f0
      (fun c => remove_animal c a) cf hl1f (remove_animal_flags cf a).1).1 hcfH
    rw [h1b] at h2
    have h2b : habAnimals (updateCell (updateCell m t0 (fun c => place_animal c a))
        f0 (fun c => remove_animal c a)) + {a} = habAnimals m + {a} := by
      calc habAnimals (updateCell (updateCell m t0 (fun c => place_animal c a))
            f0 (fun c => remove_animal c a)) + {a}
          = habAnimals (updateCell (updateCell m t0 (fun c => place_animal c a))
            f0 (fun c => remove_animal c a)) + cellAnimals cf -
              cellAnimals (remove_animal cf a) := by
            rw [← hrem]
            rw [add_comm (cellAnimals (remove_animal cf a)) {a}, ← add_assoc]
            simp
        _ = habAnimals m + {a} + cellAnimals (remove_animal cf a) -
              cellAnimals (remove_animal cf a) := by rw [h2]
        _ = habAnimals m + {a} := by simp
    exact add_right_cancel h2b
  · rw [animalsAt_update_self _ f0 _ cf hl1f, animalsAt, hcf]
    exact hrem
  · rw [animalsAt_update_ne _ f0 t0 _ hne,
      animalsAt_update_self m t0 _ ct hct, cellAnimals_place, animalsAt, hct]
  · intro co2 hf2 ht2
    rw [animalsAt_update_ne _ f0 co2 _ hf2, animalsAt_update_ne m t0 co2 _ ht2]
  · exact speciesConsistent_update _ f0 _
      (speciesConsistent_update m t0 _ hsp (fun c => speciesOk_place c a))
      (fun c => speciesOk_remove c a)
  · intro co2
    rw [flags_update _ f0 _ (fun c => (remove_animal_flags c a).1) co2,
      flags_update m t0 _ (fun c => (place_animal_flags c a).1) co2]
  · rw [updateCell_keys, updateCell_keys]
  · intro co2 c hc hnh
    have hne1 : co2 ≠ t0 := by
      intro hcc
      subst hcc
      rw [hc] at hct
      rw [← Option.some.inj hct] at hctH
      rw [hctH] at hnh
      cases hnh
    have hne2 : co2 ≠ f0 := by
      intro hcc
      subst hcc
      rw [hc] at hcf
      rw [← Option.some.inj hcf] at hcfH
      rw [hcfH] at hnh
      cases hnh
    rw [lookupCell_updateCell_ne _ co2 f0 _ hne2,
      lookupCell_updateCell_ne m co2 t0 _ hne1]
    exact hc

/-- Helper: the migration decision loop consumes exactly one decision draw
per animal of the list. -/
theorem select_migrants_count (dec : ℕ → Bool) (l : List Animal) :
    ∀ k, (select_migrants dec k l).2 = k + l.length := by
  induction l with
  | nil => intro k; rfl
  | cons a rest ih =>
    intro k
    rw [select_migrants]
    simp only [List.length_cons]
    rw [ih (k + 1)]
    omega

/-- Helper: the selected migrants are a sublist of the input. -/
theorem select_migrants_sublist (dec : ℕ → Bool) (l : List Animal) :
    ∀ k, (select_migrants dec k l).1.Sublist l := by
  induction l with
  | nil => intro k; simp [select_migrants]
  | cons a rest ih =>
    intro k
    rw [select_migrants]
    by_cases h : dec k
    · simp only [if_pos h]
      exact List.Sublist.cons₂ a (ih (k + 1))
    · simp only [if_neg h]
      exact List.Sublist.cons a (ih (k + 1))

/-- Helper: get_migrations consumes one decision per animal of the cell and
returns a sub-multiset of the cell contents. -/
theorem get_migrations_facts (dec : ℕ → Bool) (k : ℕ) (c : Cell) :
    (get_migrations dec k c).2 = k + cellNumAnimals c ∧
    ((get_migrations dec k c).1 : Multiset Animal) ≤ cellAnimals c := by
  constructor
  · rw [get_migrations, select_migrants_count]
    rw [cellNumAnimals, List.length_append]
  · rw [get_migrations]
    have hs := select_migrants_sublist dec (c.herbivores ++ c.carnivores) k
    have := hs.subperm
    rw [cellAnimals]
    exact this

/-- Helper: the queue multiset from a coordinate no entry names is empty. -/
theorem queuedFrom_eq_zero (q : List (Coord × Coord × Animal)) (co : Coord)
    (h : ∀ e ∈ q, e.1 ≠ co) : queuedFrom q co = 0 := by
  rw [queuedFrom]
  have : q.filter (fun e => e.1 = co) = [] := by
    rw [List.filter_eq_nil_iff]
    intro e he
    simpa using h e he
  rw [this]
  rfl

/-- Helper: appending one entry to the holding list. -/
theorem queuedFrom_append_one (q : List (Coord × Coord × Animal))
    (f0 t0 : Coord) (a : Animal) (co : Coord) :
    queuedFrom (q ++ [(f0, t0, a)]) co =
      queuedFrom q co + (if f0 = co then {a} else 0) := by
  rw [queuedFrom, queuedFrom, List.filter_append, List.map_append]
  by_cases h : f0 = co
  · rw [if_pos h]
    rw [show (([(f0, t0, a)] : List (Coord × Coord × Animal)).filter
      (fun e => e.1 = co)) = [(f0, t0, a)] from by simp [h]]
    rfl
  · rw [if_neg h]
    rw [show (([(f0, t0, a)] : List (Coord × Coord × Animal)).filter
      (fun e => e.1 = co)) = [] from by simp [h]]
    simp

/-- Helper: the head entry of the holding list. -/
theorem queuedFrom_cons (f0 t0 : Coord) (a : Animal)
    (rest : List (Coord × Coord × Animal)) (co : Coord) :
    queuedFrom ((f0, t0, a) :: rest) co =
      (if f0 = co then {a} else 0) + queuedFrom rest co := by
  rw [queuedFrom, queuedFrom, List.filter_cons]
  by_cases h : f0 = co
  · rw [if_pos (by simpa using h), if_pos h]
    rw [List.map_cons]
    rw [show ((a :: (rest.filter (fun e => e.1 = co)).map (fun e => e.2.2) :
      List Animal) : Multiset Animal) =
      {a} + ↑((rest.filter (fun e => e.1 = co)).map (fun e => e.2.2)) from rfl]
  · rw [if_neg (by simpa using h), if_neg h]
    simp

/-- Helper: coordHabitable through the option of the lookup. -/
theorem coordHabitable_eq (m : CellMap) (co : Coord) :
    coordHabitable m co = ((lookupCell m co).map Cell.is_habitable).getD false := by
  rw [coordHabitable]
  cases lookupCell m co with
  | none => rfl
  | some c => rfl

/-- Helper: an up or left move goes to a lexicographically earlier
coordinate. -/
theorem moveCoord_lt_of_up_left (co : Coord) (d : Dir)
    (h : d = .up ∨ d = .left) : coordLt (moveCoord co d) co := by
  rcases h with h | h <;> subst h <;> rw [coordLt] <;>
    simp [moveCoord, Dir.offset]

/-- Helper: the reading order is transitive. -/
theorem coordLt_trans (a b c : Coord) (h1 : coordLt a b) (h2 : coordLt b c) :
    coordLt a c := by
  rw [coordLt] at h1 h2 ⊢
  omega

/-- Helper: the reading order is irreflexive. -/
theorem coordLt_irrefl (a : Coord) : ¬ coordLt a a := by
  rw [coordLt]
  omega

/-- Helper: the invariants of the inner loop of migrate over the migrants of
the habitable cell at co: the habitable animal multiset is conserved, every
queued animal is still stored at its origin, species consistency, the
habitability flags, the key list and the non-habitable cells are preserved,
queued moves go from the processed cell (or an earlier one) to a distinct
habitable destination, and no cell after co in reading order is touched. -/
theorem processMigrants_master (o : MigOracle) (co : Coord) (m0 : CellMap)
    (hcoH : (lookupCell m0 co).map Cell.is_habitable = some true) :
    ∀ (ms : List Animal) (s : MigState),
      habAnimals s.cells = habAnimals m0 →
      (∀ co2, co2 ≠ co → queuedFrom s.queue co2 ≤ animalsAt s.cells co2) →
      queuedFrom s.queue co + ↑ms ≤ animalsAt s.cells co →
      speciesConsistent s.cells →
      (∀ co2, (lookupCell s.cells co2).map Cell.is_habitable =
        (lookupCell m0 co2).map Cell.is_habitable) →
      (∀ co2 c, lookupCell m0 co2 = some c → c.is_habitable = false →
        lookupCell s.cells co2 = some c) →
      s.cells.map Prod.fst = m0.map Prod.fst →
      (∀ e ∈ s.queue, e.2.1 ≠ e.1 ∧ coordHabitable s.cells e.2.1 = true ∧
        coordHabitable s.cells e.1 = true) →
      (∀ e ∈ s.queue, coordLt e.1 co ∨ e.1 = co) →
      habAnimals (processMigrants o co s ms).cells = habAnimals m0 ∧
      (∀ co2, queuedFrom (processMigrants o co s ms).queue co2 ≤
        animalsAt (processMigrants o co s ms).cells co2) ∧
      speciesConsistent (processMigrants o co s ms).cells ∧
      (∀ co2, (lookupCell (processMigrants o co s ms).cells co2).map Cell.is_habitable =
        (lookupCell m0 co2).map Cell.is_habitable) ∧
      (∀ co2 c, lookupCell m0 co2 = some c → c.is_habitable = false →
        lookupCell (processMigrants o co s ms).cells co2 = some c) ∧
      (processMigrants o co s ms).cells.map Prod.fst = m0.map Prod.fst ∧
      (∀ e ∈ (processMigrants o co s ms).queue, e.2.1 ≠ e.1 ∧
        coordHabitable (processMigrants o co s ms).cells e.2.1 = true ∧
        coordHabitable (processMigrants o co s ms).cells e.1 = true) ∧
      (∀ e ∈ (processMigrants o co s ms).queue, coordLt e.1 co ∨ e.1 = co) ∧
      (∀ co2, coordLt co co2 →
        lookupCell (processMigrants o co s ms).cells co2 = lookupCell s.cells co2) := by
  intro ms
  induction ms with
  | nil =>
    intro s h1 h2 h3 h4 h5 h6 h7 h8 h11
    rw [processMigrants]
    refine ⟨h1, ?_, h4, h5, h6, h7, h8, h11, fun co2 _ => rfl⟩
    intro co2
    by_cases h : co2 = co
    · subst h
      have := h3
      rw [show ((([] : List Animal)) : Multiset Animal) = 0 from rfl, add_zero] at this
      exact this
    · exact h2 co2 h
  | cons a rest ih =>
    intro s h1 h2 h3 h4 h5 h6 h7 h8 h11
    -- the origin cell is habitable and holds the head migrant
    obtain ⟨cf, hcf, hcfH⟩ : ∃ cf, lookupCell s.cells co = some cf ∧
        cf.is_habitable = true := by
      have := h5 co
      rw [hcoH] at this
      cases hl : lookupCell s.cells co with
      | none =>
        rw [hl] at this
        cases this
      | some cf =>
        rw [hl] at this
        exact ⟨cf, rfl, Option.some.inj this⟩
    have hmema : a ∈ animalsAt s.cells co :=
      Multiset.mem_of_le h3 (by simp)
    have hcohab : coordHabitable s.cells co = true := by
      rw [coordHabitable_eq, hcf]
      exact hcfH
    rw [processMigrants]
    by_cases hhab : coordHabitable s.cells (moveCoord co (o.dir s.kdir)) = true
    · rw [if_pos hhab]
      by_cases hdir : o.dir s.kdir = Dir.up ∨ o.dir s.kdir = Dir.left
      · rw [if_pos hdir]
        -- immediate move up or left
        have hncne : moveCoord co (o.dir s.kdir) ≠ co := moveCoord_ne co _
        have hnclt : coordLt (moveCoord co (o.dir s.kdir)) co :=
          moveCoord_lt_of_up_left co _ hdir
        obtain ⟨ct, hct, hctH⟩ : ∃ ct,
            lookupCell s.cells (moveCoord co (o.dir s.kdir)) = some ct ∧
            ct.is_habitable = true := by
          rw [coordHabitable_eq] at hhab
          cases hl : lookupCell s.cells (moveCoord co (o.dir s.kdir)) with
          | none =>
            rw [hl] at hhab
            cases hhab
          | some ct =>
            rw [hl] at hhab
            exact ⟨ct, rfl, hhab⟩
        have mm := move_master s.cells co (moveCoord co (o.dir s.kdir)) a hncne
          ct hct hctH cf hcf hcfH hmema h4
        obtain ⟨mm1, mm2, mm3, mm4, mm5, mm6, mm7, mm8⟩ := mm
        have hflags : ∀ co2,
            (lookupCell (updateCell (updateCell s.cells (moveCoord co (o.dir s.kdir))
              (fun c => place_animal c a)) co (fun c => remove_animal c a)) co2).map
              Cell.is_habitable = (lookupCell m0 co2).map Cell.is_habitable := by
          intro co2
          rw [mm6 co2]
          exact h5 co2
        have hcohab2 : ∀ co2, coordHabitable (updateCell (updateCell s.cells
            (moveCoord co (o.dir s.kdir)) (fun c => place_animal c a)) co
            (fun c => remove_animal c a)) co2 = coordHabitable s.cells co2 := by
          intro co2
          rw [coordHabitable_eq, coordHabitable_eq, mm6 co2, h5 co2]
        refine (ih ⟨_, s.queue, s.kdir + 1⟩ (by rw [mm1]; exact h1) ?_ ?_ mm5 hflags
          (fun co2 c hc hnh => mm8 co2 c (h6 co2 c hc hnh) hnh)
          (by rw [mm7]; exact h7) ?_ h11).imp id
          (fun r => r.imp id (fun r => r.imp id (fun r => r.imp id (fun r =>
            r.imp id (fun r => r.imp id (fun r => r.imp id (fun r => r.imp id
            (fun huntouched co2 hlt => ?_))))))))
        · intro co2 hne2
          by_cases hnc : co2 = moveCoord co (o.dir s.kdir)
          · subst hnc
            rw [mm3]
            exact le_trans (h2 _ hne2) (Multiset.le_cons_self _ _)
          · rw [mm4 co2 hne2 hnc]
            exact h2 co2 hne2
        · have hrearr : queuedFrom s.queue co + (↑rest : Multiset Animal) + {a} =
              queuedFrom s.queue co + ↑(a :: rest) := by
            rw [show ((a :: rest : List Animal) : Multiset Animal) =
              a ::ₘ ↑rest from rfl, ← Multiset.singleton_add]
            abel
          have h3b : queuedFrom s.queue co + (↑rest : Multiset Animal) + {a} ≤
              animalsAt (updateCell (updateCell s.cells (moveCoord co (o.dir s.kdir))
                (fun c => place_animal c a)) co (fun c => remove_animal c a)) co + {a} := by
            rw [hrearr, mm2]
            exact h3
          exact le_of_add_le_add_right h3b
        · intro e he
          obtain ⟨he1, he2, he3⟩ := h8 e he
          exact ⟨he1, by rw [hcohab2]; exact he2, by rw [hcohab2]; exact he3⟩
        · have hco2ne : co2 ≠ co := fun hc => coordLt_irrefl co (hc ▸ hlt)
          have hco2nc : co2 ≠ moveCoord co (o.dir s.kdir) := by
            intro hc
            exact coordLt_irrefl co2 (coordLt_trans co2 co co2 (hc ▸ hnclt) hlt)
          rw [huntouched co2 hlt]
          rw [lookupCell_updateCell_ne _ co2 co _ hco2ne,
            lookupCell_updateCell_ne s.cells co2 (moveCoord co (o.dir s.kdir)) _ hco2nc]
      · rw [if_neg hdir]
        -- queued move down or right
        have hncne : moveCoord co (o.dir s.kdir) ≠ co := moveCoord_ne co _
        refine ih ⟨s.cells, s.queue ++ [(co, moveCoord co (o.dir s.kdir), a)],
          s.kdir + 1⟩ h1 ?_ ?_ h4 h5 h6 h7 ?_ ?_
        · intro co2 hne2
          rw [queuedFrom_append_one]
          rw [if_neg (fun hc => hne2 hc.symm), add_zero]
          exact h2 co2 hne2
        · rw [queuedFrom_append_one, if_pos rfl]
          have : queuedFrom s.queue co + {a} + (↑rest : Multiset Animal) =
              queuedFrom s.queue co + ↑(a :: rest) := by
            rw [show ((a :: rest : List Animal) : Multiset Animal) =
              a ::ₘ ↑rest from rfl, ← Multiset.singleton_add]
            abel
          rw [this]
          exact h3
        · intro e he
          rcases List.mem_append.mp he with h | h
          · exact h8 e h
          · rw [List.mem_singleton.mp h]
            exact ⟨hncne, hhab, hcohab⟩
        · intro e he
          rcases List.mem_append.mp he with h | h
          · exact h11 e h
          · rw [List.mem_singleton.mp h]
            exact Or.inr rfl
    · rw [if_neg hhab]
      -- blocked move, the animal stays
      refine ih ⟨s.cells, s.queue, s.kdir + 1⟩ h1 h2 ?_ h4 h5 h6 h7 h8 h11
      refine le_trans ?_ h3
      refine add_le_add_left ?_ _
      rw [show ((a :: rest : List Animal) : Multiset Animal) = a ::ₘ ↑rest from rfl]
      exact Multiset.le_cons_self _ _

/-- Helper: in a reading-order chain the head is below every later
element. -/
theorem chain'_head_lt (co : Coord) :
    ∀ rest, List.Chain' coordLt (co :: rest) → ∀ co2 ∈ rest, coordLt co co2 := by
  intro rest
  induction rest generalizing co with
  | nil =>
    intro _ co2 h2
    cases h2
  | cons b r2 ih =>
    intro hc co2 h2
    have h1 : coordLt co b := (List.chain'_cons.mp hc).1
    rcases List.mem_cons.mp h2 with h | h
    · rw [h]
      exact h1
    · exact coordLt_trans co b co2 h1 (ih b (List.chain'_cons.mp hc).2 co2 h)

/-- Helper: a reading-order chain is pairwise ordered. -/
theorem chain'_coordLt_pairwise :
    ∀ hs, List.Chain' coordLt hs → List.Pairwise coordLt hs := by
  intro hs
  induction hs with
  | nil => intro _; exact List.Pairwise.nil
  | cons co rest ih =>
    intro hc
    refine List.pairwise_cons.mpr ⟨chain'_head_lt co rest hc, ?_⟩
    exact ih (List.Chain'.tail hc)

/-- Helper: with pairwise distinct keys, every habitable coordinate looks up
its habitable cell. -/
theorem habitableCoords_lookup (m : CellMap) (hnd : (m.map Prod.fst).Nodup) :
    ∀ co ∈ habitableCoords m, ∃ c, lookupCell m co = some c ∧
      c.is_habitable = true := by
  induction m with
  | nil =>
    intro co h
    cases h
  | cons e rest ih =>
    intro co hco
    have hnd1 : e.1 ∉ rest.map Prod.fst := by
      rw [List.map_cons] at hnd
      exact (List.nodup_cons.mp hnd).1
    have hnd2 : (rest.map Prod.fst).Nodup := by
      rw [List.map_cons] at hnd
      exact (List.nodup_cons.mp hnd).2
    rw [habitableCoords, List.filter_cons] at hco
    by_cases hh : e.2.is_habitable = true
    · rw [if_pos (by simpa using hh)] at hco
      rw [List.map_cons] at hco
      rcases List.mem_cons.mp hco with h | h
      · refine ⟨e.2, ?_, hh⟩
        rw [h, lookupCell, List.find?_cons_of_pos _ (by simp)]
      · obtain ⟨c, hc, hch⟩ := ih hnd2 co h
        have hne : e.1 ≠ co := by
          intro hc2
          refine hnd1 ?_
          rw [hc2]
          have : co ∈ (rest.filter (fun e => e.2.is_habitable)).map Prod.fst := h
          have hsub : (rest.filter (fun e => e.2.is_habitable)).map Prod.fst ⊆
              rest.map Prod.fst :=
            List.map_subset _ (List.filter_subset' _)
          exact hsub this
        refine ⟨c, ?_, hch⟩
        rw [lookupCell, List.find?_cons_of_neg _ (by simpa using hne)]
        exact hc
    · rw [if_neg (by simpa using hh)] at hco
      obtain ⟨c, hc, hch⟩ := ih hnd2 co hco
      have hne : e.1 ≠ co := by
        intro hc2
        refine hnd1 ?_
        rw [hc2]
        have hsub : (rest.filter (fun e => e.2.is_habitable)).map Prod.fst ⊆
            rest.map Prod.fst :=
          List.map_subset _ (List.filter_subset' _)
        exact hsub hco
      refine ⟨c, ?_, hch⟩
      rw [lookupCell, List.find?_cons_of_neg _ (by simpa using hne)]
      exact hc

/-- Helper: with pairwise distinct keys, summing the cell sizes over the
habitable coordinates gives Island.num_animals. -/
theorem habitableCoords_sum (m : CellMap) (hnd : (m.map Prod.fst).Nodup) :
    ((habitableCoords m).map (fun co => Multiset.card (animalsAt m co))).sum =
      num_animals m := by
  induction m with
  | nil => rfl
  | cons e rest ih =>
    have hnd1 : e.1 ∉ rest.map Prod.fst := by
      rw [List.map_cons] at hnd
      exact (List.nodup_cons.mp hnd).1
    have hnd2 : (rest.map Prod.fst).Nodup := by
      rw [List.map_cons] at hnd
      exact (List.nodup_cons.mp hnd).2
    have hcard : Multiset.card (cellAnimals e.2) = cellNumAnimals e.2 := by
      rw [cellAnimals, cellNumAnimals, Multiset.card_add]
      rfl
    have hrestmap : ∀ co ∈ habitableCoords rest,
        animalsAt (e :: rest) co = animalsAt rest co := by
      intro co hco
      have hne : e.1 ≠ co := by
        intro hc2
        refine hnd1 ?_
        rw [hc2]
        have hsub : (rest.filter (fun e => e.2.is_habitable)).map Prod.fst ⊆
            rest.map Prod.fst :=
          List.map_subset _ (List.filter_subset' _)
        exact hsub hco
      rw [animalsAt, animalsAt, lookupCell, List.find?_cons_of_neg _ (by simpa using hne)]
      rfl
    by_cases hh : e.2.is_habitable = true
    · have hfc : (e :: rest).filter (fun x => x.2.is_habitable) =
          e :: rest.filter (fun x => x.2.is_habitable) := by
        rw [List.filter_cons, if_pos (by simpa using hh)]
      rw [habitableCoords, hfc, num_animals, hfc]
      simp only [List.map_cons, List.sum_cons]
      have h1 : animalsAt (e :: rest) e.1 = cellAnimals e.2 := by
        rw [animalsAt, lookupCell, List.find?_cons_of_pos _ (by simp)]
      rw [h1, hcard]
      have h2 : ((habitableCoords rest).map
          (fun co => Multiset.card (animalsAt (e :: rest) co))).sum =
          ((habitableCoords rest).map
          (fun co => Multiset.card (animalsAt rest co))).sum := by
        refine congrArg List.sum (List.map_congr_left ?_)
        intro co hco
        rw [hrestmap co hco]
      rw [show ((rest.filter (fun e => e.2.is_habitable)).map Prod.fst) =
        habitableCoords rest from rfl]
      rw [h2, ih hnd2]
      rfl
    · have hfc : (e :: rest).filter (fun x => x.2.is_habitable) =
          rest.filter (fun x => x.2.is_habitable) := by
        rw [List.filter_cons, if_neg (by simpa using hh)]
      rw [habitableCoords, hfc, num_animals, hfc]
      have h2 : ((habitableCoords rest).map
          (fun co => Multiset.card (animalsAt (e :: rest) co))).sum =
          ((habitableCoords rest).map
          (fun co => Multiset.card (animalsAt rest co))).sum := by
        refine congrArg List.sum (List.map_congr_left ?_)
        intro co hco
        rw [hrestmap co hco]
      rw [show ((rest.filter (fun e => e.2.is_habitable)).map Prod.fst) =
        habitableCoords rest from rfl]
      rw [h2, ih hnd2]
      rfl

/-- Helper: the invariants of the outer loop of migrate over the habitable
coordinates, and the decision-draw count: one decision draw is consumed per
animal stored at the processed coordinates. -/
theorem migrateLoop_master (o : MigOracle) (m0 : CellMap) :
    ∀ (hs : List Coord) (s : MigFull),
      List.Chain' coordLt hs →
      (∀ co ∈ hs, (lookupCell m0 co).map Cell.is_habitable = some true) →
      habAnimals s.cells = habAnimals m0 →
      (∀ co2, queuedFrom s.queue co2 ≤ animalsAt s.cells co2) →
      speciesConsistent s.cells →
      (∀ co2, (lookupCell s.cells co2).map Cell.is_habitable =
        (lookupCell m0 co2).map Cell.is_habitable) →
      (∀ co2 c, lookupCell m0 co2 = some c → c.is_habitable = false →
        lookupCell s.cells co2 = some c) →
      s.cells.map Prod.fst = m0.map Prod.fst →
      (∀ e ∈ s.queue, e.2.1 ≠ e.1 ∧ coordHabitable s.cells e.2.1 = true ∧
        coordHabitable s.cells e.1 = true) →
      (∀ e ∈ s.queue, ∀ co2 ∈ hs, coordLt e.1 co2) →
      (∀ co2 ∈ hs, lookupCell s.cells co2 = lookupCell m0 co2) →
      habAnimals (migrateLoop o s hs).cells = habAnimals m0 ∧
      (∀ co2, queuedFrom (migrateLoop o s hs).queue co2 ≤
        animalsAt (migrateLoop o s hs).cells co2) ∧
      speciesConsistent (migrateLoop o s hs).cells ∧
      (∀ co2, (lookupCell (migrateLoop o s hs).cells co2).map Cell.is_habitable =
        (lookupCell m0 co2).map Cell.is_habitable) ∧
      (∀ co2 c, lookupCell m0 co2 = some c → c.is_habitable = false →
        lookupCell (migrateLoop o s hs).cells co2 = some c) ∧
      (migrateLoop o s hs).cells.map Prod.fst = m0.map Prod.fst ∧
      (∀ e ∈ (migrateLoop o s hs).queue, e.2.1 ≠ e.1 ∧
        coordHabitable (migrateLoop o s hs).cells e.2.1 = true ∧
        coordHabitable (migrateLoop o s hs).cells e.1 = true) ∧
      (migrateLoop o s hs).kdec = s.kdec +
        (hs.map (fun co => Multiset.card (animalsAt m0 co))).sum := by
  intro hs
  induction hs with
  | nil =>
    intro s _ _ h1 h2 h4 h5 h6 h7 h8 _ _
    rw [migrateLoop]
    exact ⟨h1, h2, h4, h5, h6, h7, h8, by simp⟩
  | cons co rest ih =>
    intro s hchain hhabs h1 h2 h4 h5 h6 h7 h8 h11 h10
    have hcoH : (lookupCell m0 co).map Cell.is_habitable = some true :=
      hhabs co (List.mem_cons_self co rest)
    obtain ⟨cell, hcell⟩ : ∃ cell, lookupCell m0 co = some cell := by
      cases hl : lookupCell m0 co with
      | none =>
        rw [hl] at hcoH
        cases hcoH
      | some cell => exact ⟨cell, rfl⟩
    have hlook : lookupCell s.cells co = some cell := by
      rw [h10 co (List.mem_cons_self co rest), hcell]
    have hred : migrateLoop o s (co :: rest) =
        migrateLoop o
          ⟨(processMigrants o co ⟨s.cells, s.queue, s.kdir⟩
              (get_migrations o.dec s.kdec cell).1).cells,
           (processMigrants o co ⟨s.cells, s.queue, s.kdir⟩
              (get_migrations o.dec s.kdec cell).1).queue,
           (get_migrations o.dec s.kdec cell).2,
           (processMigrants o co ⟨s.cells, s.queue, s.kdir⟩
              (get_migrations o.dec s.kdec cell).1).kdir⟩ rest := by
      rw [migrateLoop, hlook]
    rw [hred]
    have hqco : queuedFrom s.queue co = 0 := by
      refine queuedFrom_eq_zero s.queue co ?_
      intro e he
      exact fun hc => coordLt_irrefl co
        (hc ▸ h11 e he co (List.mem_cons_self co rest))
    have hmig := get_migrations_facts o.dec s.kdec cell
    have hp := processMigrants_master o co m0 hcoH (get_migrations o.dec s.kdec cell).1
      ⟨s.cells, s.queue, s.kdir⟩ h1 (fun co2 _ => h2 co2) ?_ h4 h5 h6 h7 h8 ?_
    · obtain ⟨p1, p2, p3, p4, p5, p6, p7, p8, p9⟩ := hp
      have hheadlt := chain'_head_lt co rest hchain
      have hres := ih ⟨(processMigrants o co ⟨s.cells, s.queue, s.kdir⟩
          (get_migrations o.dec s.kdec cell).1).cells,
        (processMigrants o co ⟨s.cells, s.queue, s.kdir⟩
          (get_migrations o.dec s.kdec cell).1).queue,
        (get_migrations o.dec s.kdec cell).2,
        (processMigrants o co ⟨s.cells, s.queue, s.kdir⟩
          (get_migrations o.dec s.kdec cell).1).kdir⟩
        (List.Chain'.tail hchain)
        (fun co2 h => hhabs co2 (List.mem_cons_of_mem co h))
        p1 p2 p3 p4 p5 p6 p7 ?_ ?_
      · refine ⟨hres.1, hres.2.1, hres.2.2.1, hres.2.2.2.1, hres.2.2.2.2.1,
          hres.2.2.2.2.2.1, hres.2.2.2.2.2.2.1, ?_⟩
        rw [hres.2.2.2.2.2.2.2]
        simp only [List.map_cons, List.sum_cons]
        rw [hmig.1]
        have hcnum : cellNumAnimals cell = Multiset.card (animalsAt m0 co) := by
          have ha : animalsAt m0 co = cellAnimals cell := by
            rw [animalsAt, hcell]
          rw [ha, cellAnimals, cellNumAnimals, Multiset.card_add]
          rfl
        omega
      · intro e he co2 hco2
        rcases p8 e he with hlt | heq
        · exact coordLt_trans e.1 co co2 hlt (hheadlt co2 hco2)
        · rw [heq]
          exact hheadlt co2 hco2
      · intro co2 hco2
        rw [p9 co2 (hheadlt co2 hco2)]
        exact h10 co2 (List.mem_cons_of_mem co hco2)
    · rw [hqco, zero_add]
      have : animalsAt s.cells co = cellAnimals cell := by
        rw [animalsAt, hlook]
      rw [this]
      exact hmig.2
    · intro e he
      exact Or.inl (h11 e he co (List.mem_cons_self co rest))

/-- Helper: applying the holding list conserves the habitable animal
multiset and preserves species consistency, the habitability flags, the
non-habitable cells and the key list. -/
theorem applyQueue_master (m0 : CellMap) :
    ∀ (q : List (Coord × Coord × Animal)) (m : CellMap),
      habAnimals m = habAnimals m0 →
      (∀ co2, queuedFrom q co2 ≤ animalsAt m co2) →
      speciesConsistent m →
      (∀ co2, (lookupCell m co2).map Cell.is_habitable =
        (lookupCell m0 co2).map Cell.is_habitable) →
      (∀ co2 c, lookupCell m0 co2 = some c → c.is_habitable = false →
        lookupCell m co2 = some c) →
      m.map Prod.fst = m0.map Prod.fst →
      (∀ e ∈ q, e.2.1 ≠ e.1 ∧ coordHabitable m e.2.1 = true ∧
        coordHabitable m e.1 = true) →
      habAnimals (applyQueue m q) = habAnimals m0 ∧
      speciesConsistent (applyQueue m q) ∧
      (∀ co2, (lookupCell (applyQueue m q) co2).map Cell.is_habitable =
        (lookupCell m0 co2).map Cell.is_habitable) ∧
      (∀ co2 c, lookupCell m0 co2 = some c → c.is_habitable = false →
        lookupCell (applyQueue m q) co2 = some c) ∧
      (applyQueue m q).map Prod.fst = m0.map Prod.fst := by
  intro q
  induction q with
  | nil =>
    intro m h1 h2 h4 h5 h6 h7 h8
    rw [applyQueue]
    exact ⟨h1, h4, h5, h6, h7⟩
  | cons entry rest ih =>
    obtain ⟨f0, t0, a⟩ := entry
    intro m h1 h2 h4 h5 h6 h7 h8
    obtain ⟨hne, hdhab, hohab⟩ := h8 (f0, t0, a) (List.mem_cons_self _ rest)
    obtain ⟨ct, hct, hctH⟩ : ∃ ct, lookupCell m t0 = some ct ∧
        ct.is_habitable = true := by
      rw [coordHabitable_eq] at hdhab
      cases hl : lookupCell m t0 with
      | none =>
        rw [hl] at hdhab
        cases hdhab
      | some ct =>
        rw [hl] at hdhab
        exact ⟨ct, rfl, hdhab⟩
    obtain ⟨cf, hcf, hcfH⟩ : ∃ cf, lookupCell m f0 = some cf ∧
        cf.is_habitable = true := by
      rw [coordHabitable_eq] at hohab
      cases hl : lookupCell m f0 with
      | none =>
        rw [hl] at hohab
        cases hohab
      | some cf =>
        rw [hl] at hohab
        exact ⟨cf, rfl, hohab⟩
    have hqf := h2 f0
    rw [queuedFrom_cons, if_pos rfl] at hqf
    have hmema : a ∈ animalsAt m f0 :=
      Multiset.mem_of_le hqf (by rw [Multiset.singleton_add]; simp)
    have mm := move_master m f0 t0 a hne ct hct hctH cf hcf hcfH hmema h4
    obtain ⟨mm1, mm2, mm3, mm4, mm5, mm6, mm7, mm8⟩ := mm
    rw [applyQueue]
    have hcohab2 : ∀ co2, coordHabitable (updateCell (updateCell m t0
        (fun c => place_animal c a)) f0 (fun c => remove_animal c a)) co2 =
        coordHabitable m co2 := by
      intro co2
      rw [coordHabitable_eq, coordHabitable_eq, mm6 co2, h5 co2]
    refine ih _ (by rw [mm1]; exact h1) ?_ mm5
      (fun co2 => by rw [mm6 co2]; exact h5 co2)
      (fun co2 c hc hnh => mm8 co2 c (h6 co2 c hc hnh) hnh)
      (by rw [mm7]; exact h7) ?_
    · intro co2
      by_cases hf : co2 = f0
      · subst hf
        have heq : queuedFrom rest co2 + {a} = a ::ₘ queuedFrom rest co2 := by
          rw [← Multiset.singleton_add, add_comm]
        have hrest : queuedFrom rest co2 + {a} ≤ animalsAt m co2 := by
          rw [heq]
          exact hqf
        rw [← mm2] at hrest
        exact le_of_add_le_add_right hrest
      · by_cases ht : co2 = t0
        · subst ht
          rw [mm3]
          have := h2 co2
          rw [queuedFrom_cons, if_neg (fun hc => hf hc.symm), zero_add] at this
          exact le_trans this (Multiset.le_cons_self _ _)
        · rw [mm4 co2 hf ht]
          have := h2 co2
          rw [queuedFrom_cons, if_neg (fun hc => hf hc.symm), zero_add] at this
          exact this
    · intro e he
      obtain ⟨he1, he2, he3⟩ := h8 e (List.mem_cons_of_mem _ he)
      exact ⟨he1, by rw [hcohab2]; exact he2, by rw [hcohab2]; exact he3⟩

/-- Helper: the complete effect of one migrate() call on a well-formed
island (keys strictly in reading order, species-consistent cells): the
habitable animal count is conserved, species consistency, the key list, all
habitability flags and the non-habitable cells are preserved, and exactly
one migration-decision draw is consumed per animal on the island. -/
theorem migrate_master (o : MigOracle) (m : CellMap)
    (hchain : List.Chain' coordLt (m.map Prod.fst))
    (hsp : speciesConsistent m) :
    num_animals (migrate o m) = num_animals m ∧
    speciesConsistent (migrate o m) ∧
    (∀ co c, lookupCell m co = some c → c.is_habitable = false →
      lookupCell (migrate o m) co = some c) ∧
    (migrate o m).map Prod.fst = m.map Prod.fst ∧
    (∀ co, (lookupCell (migrate o m) co).map Cell.is_habitable =
      (lookupCell m co).map Cell.is_habitable) ∧
    (migrateK o m).2 = num_animals m := by
  have hpair : List.Pairwise coordLt (m.map Prod.fst) :=
    chain'_coordLt_pairwise _ hchain
  have hnd : (m.map Prod.fst).Nodup := by
    refine hpair.imp ?_
    intro a b hlt heq
    exact coordLt_irrefl a (heq ▸ hlt)
  have hbsub : List.Sublist (habitableCoords m) (m.map Prod.fst) :=
    (List.filter_sublist m).map Prod.fst
  have hbch : List.Chain' coordLt (habitableCoords m) :=
    (hpair.sublist hbsub).chain'
  have hhabs : ∀ co ∈ habitableCoords m,
      (lookupCell m co).map Cell.is_habitable = some true := by
    intro co hco
    obtain ⟨c, hc, hh⟩ := habitableCoords_lookup m hnd co hco
    rw [hc]
    simp [hh]
  have hL := migrateLoop_master o m (habitableCoords m) ⟨m, [], 0, 0⟩ hbch hhabs
    rfl (fun co2 => by rw [show queuedFrom [] co2 = 0 from rfl]; exact zero_le _)
    hsp (fun co2 => rfl) (fun co2 c hc _ => hc) rfl
    (fun e he => absurd he (List.not_mem_nil e))
    (fun e he => absurd he (List.not_mem_nil e))
    (fun co2 _ => rfl)
  obtain ⟨L1, L2, L3, L4, L5, L6, L7, L8⟩ := hL
  have hA := applyQueue_master m
    (migrateLoop o ⟨m, [], 0, 0⟩ (habitableCoords m)).queue
    (migrateLoop o ⟨m, [], 0, 0⟩ (habitableCoords m)).cells
    L1 L2 L3 L4 L5 L6 L7
  obtain ⟨A1, A2, A3, A4, A5⟩ := hA
  have hmeq : migrate o m =
      applyQueue (migrateLoop o ⟨m, [], 0, 0⟩ (habitableCoords m)).cells
        (migrateLoop o ⟨m, [], 0, 0⟩ (habitableCoords m)).queue := rfl
  have hkeq : (migrateK o m).2 =
      (migrateLoop o ⟨m, [], 0, 0⟩ (habitableCoords m)).kdec := rfl
  refine ⟨?_, ?_, ?_, ?_, ?_, ?_⟩
  · rw [num_animals_eq_card, num_animals_eq_card, hmeq, A1]
  · rw [hmeq]
    exact A2
  · intro co c hc hnh
    rw [hmeq]
    exact A4 co c hc hnh
  · rw [hmeq]
    exact A5
  · intro co
    rw [hmeq]
    exact A3 co
  · rw [hkeq, L8, habitableCoords_sum m hnd]
    simp

/-- C1: for every well-formed island state (keys in reading order as built
by the constructor, species-consistent cells), a single Island.migrate call
conserves the total animal count, and so does any number of successive
calls; migration never moves an agent into a non-habitable cell (every
water cell is left exactly as it was, in particular empty if it was empty);
and each agent is evaluated for migration exactly once per call: the number
of migration-decision draws consumed equals the number of agents on the
island, so no agent that has already moved is reconsidered, regardless of
how the in-place up-left moves interleave with the holding list. -/
theorem C1_migrate_at_most_once_conserves (m : CellMap)
    (hchain : List.Chain' coordLt (m.map Prod.fst))
    (hsp : speciesConsistent m) :
    (∀ o, num_animals (migrate o m) = num_animals m) ∧
    (∀ os : List MigOracle,
      num_animals (os.foldl (fun s o => migrate o s) m) = num_animals m) ∧
    (∀ o co c, lookupCell m co = some c → c.is_habitable = false →
      lookupCell (migrate o m) co = some c) ∧
    (∀ o, (migrateK o m).2 = num_animals m) := by
  refine ⟨fun o => (migrate_master o m hchain hsp).1, ?_,
    fun o => (migrate_master o m hchain hsp).2.2.1,
    fun o => (migrate_master o m hchain hsp).2.2.2.2.2⟩
  intro os
  induction os generalizing m with
  | nil => rfl
  | cons o rest ih =>
    rw [List.foldl_cons]
    have hm := migrate_master o m hchain hsp
    have hch2 : List.Chain' coordLt ((migrate o m).map Prod.fst) := by
      rw [hm.2.2.2.1]
      exact hchain
    rw [ih (migrate o m) hch2 hm.2.1]
    exact hm.1

/-- Witness for C1 at a concrete input: the built 3 by 3 island with a
lowland interior cell is well formed, and a migrate call with a concrete
oracle (everyone decides to migrate, always northwards) conserves the
count. -/
theorem C1_migrate_at_most_once_conserves_witness :
    List.Chain' coordLt ((build_island defaultLandEnv
      [['W','W','W'], ['W','L','W'], ['W','W','W']]).map Prod.fst) ∧
    speciesConsistent (build_island defaultLandEnv
      [['W','W','W'], ['W','L','W'], ['W','W','W']]) ∧
    num_animals (migrate ⟨fun _ => true, fun _ => Dir.up⟩
      (build_island defaultLandEnv [['W','W','W'], ['W','L','W'], ['W','W','W']])) =
      num_animals (build_island defaultLandEnv
        [['W','W','W'], ['W','L','W'], ['W','W','W']]) :=
  ⟨by
    rw [show (build_island defaultLandEnv
        [['W','W','W'], ['W','L','W'], ['W','W','W']]).map Prod.fst =
      [((1:ℤ), (1:ℤ)), (1, 2), (1, 3), (2, 1), (2, 2), (2, 3), (3, 1), (3, 2), (3, 3)]
      from rfl]
    norm_num [List.chain'_cons, List.chain'_singleton, coordLt],
   by decide,
   (C1_migrate_at_most_once_conserves
     (build_island defaultLandEnv [['W','W','W'], ['W','L','W'], ['W','W','W']])
     (by
       rw [show (build_island defaultLandEnv
           [['W','W','W'], ['W','L','W'], ['W','W','W']]).map Prod.fst =
         [((1:ℤ), (1:ℤ)), (1, 2), (1, 3), (2, 1), (2, 2), (2, 3), (3, 1), (3, 2), (3, 3)]
         from rfl]
       norm_num [List.chain'_cons, List.chain'_singleton, coordLt])
     (by decide)).1 ⟨fun _ => true, fun _ => Dir.up⟩⟩

/-- Helper: sorting a constant list is the identity. -/
theorem mergeSort_replicate (n : ℕ) (a : Animal) (le : Animal → Animal → Bool) :
    (List.replicate n a).mergeSort le = List.replicate n a := by
  have h := List.mergeSort_perm (List.replicate n a) le
  have hm : ∀ b ∈ (List.replicate n a).mergeSort le, b = a := by
    intro b hb
    exact List.eq_of_mem_replicate (h.mem_iff.mp hb)
  have hl := List.eq_replicate_of_mem hm
  rwa [h.length_eq, List.length_replicate] at hl

/-- Helper: a mother below the minimum-weight gate never gives birth when
the draw is a uniform sample. -/
theorem give_birth_gate (p : AnimalParams) (Φ : FitFn) (a : Animal) (n : ℕ)
    (draw wRaw : ℚ) (hd : 0 ≤ draw)
    (hw : a.weight < p.zeta * (p.w_birth + p.sigma_birth)) :
    give_birth p Φ a n draw wRaw = (a, none) := by
  rw [give_birth]
  by_cases hn : n ≤ 1
  · rw [if_pos hn]
  · rw [if_neg hn]
    simp only [if_pos hw]
    rw [if_neg (not_lt.mpr hd)]

/-- Helper: the birth loop produces no newborn and no change when every
mother is below the gate. -/
theorem birth_go_gate (p : AnimalParams) (Φ : FitFn) (bdraw wdraw : ℕ → ℚ)
    (n : ℕ) (hb : ∀ i, 0 ≤ bdraw i) :
    ∀ (l : List Animal) (k : ℕ),
      (∀ a ∈ l, a.weight < p.zeta * (p.w_birth + p.sigma_birth)) →
      birth_go p Φ bdraw wdraw n k l = (l, []) := by
  intro l
  induction l with
  | nil => intro k _; rfl
  | cons a rest ih =>
    intro k hw
    rw [birth_go, give_birth_gate p Φ a n (bdraw k) (wdraw k) (hb k)
      (hw a (List.mem_cons_self a rest)),
      ih (k + 1) (fun b hb2 => hw b (List.mem_cons_of_mem a hb2))]

/-- Helper: the herbivore feeding loop over identical default herbivores of
weight 20: with fodder at least 10 per animal each eats its full appetite
10 and reaches weight 29. -/
theorem feed_herb_replicate :
    ∀ (n : ℕ) (f : ℚ), 10 * (n : ℚ) ≤ f →
      feed_herbivores_go herbivoreDefaults f
        (List.replicate n (Animal.mk .herbivore 5 20 false)) =
      (f - 10 * (n : ℚ), List.replicate n (Animal.mk .herbivore 5 29 false)) := by
  intro n
  induction n with
  | zero =>
    intro f _
    simp [feed_herbivores_go]
  | succ n2 ih =>
    intro f hf
    have hf10 : (10 : ℚ) ≤ f := by
      have : (10 : ℚ) * 1 ≤ 10 * ((n2 : ℚ) + 1) := by
        have : (1 : ℚ) ≤ (n2 : ℚ) + 1 := by
          have : (0 : ℚ) ≤ (n2 : ℚ) := Nat.cast_nonneg n2
          linarith
        linarith
      push_cast at hf
      linarith
    have hfpos : 0 < f := lt_of_lt_of_le (by norm_num) hf10
    rw [List.replicate_succ, feed_herbivores_go, if_pos hfpos]
    have hfeed : feeding herbivoreDefaults (Animal.mk .herbivore 5 20 false) f =
        (Animal.mk .herbivore 5 29 false, 10) := by
      rw [feeding]
      have hmin : min herbivoreDefaults.F f = 10 := by
        rw [show herbivoreDefaults.F = 10 from rfl]
        exact min_eq_left hf10
      rw [hmin]
      norm_num [herbivoreDefaults]
    simp only [hfeed]
    have hrec : 10 * (n2 : ℚ) ≤ f - 10 := by
      push_cast at hf
      linarith
    rw [ih (f - 10) hrec]
    refine Prod.ext_iff.mpr ⟨?_, ?_⟩
    · show f - 10 - 10 * (n2 : ℚ) = f - 10 * ((n2 + 1 : ℕ) : ℚ)
      push_cast
      ring
    · show Animal.mk .herbivore 5 29 false ::
          List.replicate n2 (Animal.mk .herbivore 5 29 false) =
          List.replicate (n2 + 1) (Animal.mk .herbivore 5 29 false)
      rw [List.replicate_succ]

/-- Helper: when no neighbour of the processed cell is habitable, the inner
migrate loop moves nobody and queues nothing. -/
theorem processMigrants_blocked (o : MigOracle) (co : Coord) :
    ∀ (ms : List Animal) (s : MigState),
      (∀ d : Dir, coordHabitable s.cells (moveCoord co d) = false) →
      processMigrants o co s ms = ⟨s.cells, s.queue, s.kdir + ms.length⟩ := by
  intro ms
  induction ms with
  | nil =>
    intro s _
    rfl
  | cons a rest ih =>
    intro s hblock
    rw [processMigrants]
    rw [if_neg (by rw [hblock (o.dir s.kdir)]; simp)]
    rw [ih ⟨s.cells, s.queue, s.kdir + 1⟩ (fun d => hblock d)]
    simp only [List.length_cons]
    rw [show s.kdir + 1 + rest.length = s.kdir + (rest.length + 1) from by omega]

/-- Helper: the death filter only keeps animals of the input list. -/
theorem die_go_subset (p : AnimalParams) (Φ : FitFn) (draw : ℕ → ℚ) :
    ∀ (l : List Animal) (k : ℕ) (a : Animal),
      a ∈ (die_go p Φ draw k l).1 → a ∈ l := by
  intro l
  induction l with
  | nil =>
    intro k a h
    cases h
  | cons b rest ih =>
    intro k a h
    rw [die_go] at h
    by_cases hw : b.weight ≤ 0
    · rw [if_pos hw] at h
      exact List.mem_cons_of_mem b (ih k a h)
    · rw [if_neg hw] at h
      simp only at h
      by_cases hd : draw k < p.omega * (1 - fitness Φ b)
      · rw [if_pos hd] at h
        exact List.mem_cons_of_mem b (ih (k + 1) a h)
      · rw [if_neg hd] at h
        rcases List.mem_cons.mp h with h1 | h1
        · rw [h1]
          exact List.mem_cons_self b rest
        · exact List.mem_cons_of_mem b (ih (k + 1) a h1)

/-- Helper: the lookup at (2,2) in the scenario map. -/
theorem lookupCell_mapSL (c : Cell) :
    lookupCell (mapSL c) ((2 : ℤ), (2 : ℤ)) = some c := rfl

/-- Helper: updating the Lowland cell of the scenario map. -/
theorem updateCell_mapSL (c : Cell) (g : Cell → Cell) :
    updateCell (mapSL c) ((2 : ℤ), (2 : ℤ)) g = mapSL (g c) := rfl

/-- Helper: the only habitable coordinate of the scenario map is (2,2). -/
theorem habitableCoords_mapSL (f : ℚ) (lh lc : List Animal) :
    habitableCoords (mapSL (Cell.mk .lowland true f lh lc)) = [((2 : ℤ), (2 : ℤ))] := rfl

/-- Helper: every neighbour of the Lowland cell of the scenario map is
water, hence not habitable. -/
theorem coordHabitable_mapSL (c : Cell) (d : Dir) :
    coordHabitable (mapSL c) (moveCoord ((2 : ℤ), (2 : ℤ)) d) = false := by
  cases d <;> rfl

/-- Helper: migration is a no-op on the scenario map, its only habitable
cell having only water neighbours. -/
theorem migrate_mapSL (o : MigOracle) (c : Cell)
    (hhc : habitableCoords (mapSL c) = [((2 : ℤ), (2 : ℤ))]) :
    migrate o (mapSL c) = mapSL c := by
  have hs2 := processMigrants_blocked o ((2 : ℤ), (2 : ℤ))
    (get_migrations o.dec 0 c).1 ⟨mapSL c, [], 0⟩ (fun d => coordHabitable_mapSL c d)
  have hloop : migrateLoop o ⟨mapSL c, [], 0, 0⟩ [((2 : ℤ), (2 : ℤ))] =
      ⟨mapSL c, [], (get_migrations o.dec 0 c).2,
        0 + (get_migrations o.dec 0 c).1.length⟩ := by
    simp only [migrateLoop, lookupCell_mapSL]
    simp only [hs2]
  show applyQueue (migrateLoop o ⟨mapSL c, [], 0, 0⟩ (habitableCoords (mapSL c))).cells
      (migrateLoop o ⟨mapSL c, [], 0, 0⟩ (habitableCoords (mapSL c))).queue = mapSL c
  rw [hhc, hloop]
  rfl

/-- Helper: the herbivore feeding phase of the scenario cell: each of the 50
herbivores of weight 20 eats its full appetite 10, the fodder drops from 800
to 300 and each weight becomes 20 + 0.9 * 10 = 29. -/
theorem feed_herbivores_SL (Φ : FitFn) :
    feed_herbivores herbivoreDefaults Φ
      (Cell.mk .lowland true 800
        (List.replicate 50 (Animal.mk .herbivore 5 20 false)) []) =
    Cell.mk .lowland true 300
      (List.replicate 50 (Animal.mk .herbivore 5 29 false)) [] := by
  have h2 := feed_herb_replicate 50 800 (by norm_num)
  rw [show (800 : ℚ) - 10 * ((50 : ℕ) : ℚ) = 300 from by push_cast; norm_num] at h2
  simp only [feed_herbivores]
  rw [mergeSort_replicate]
  rw [h2]

/-- Helper: the carnivore feeding phase of a cell without carnivores leaves
the cell and the hunting draw counter unchanged. -/
theorem feed_carnivores_SL (Φ : FitFn) (sh : List Animal → List Animal)
    (hsh : (sh []).Perm []) (rand : ℕ → ℚ) (k : ℕ) (n : ℕ) (a : Animal) (f : ℚ) :
    feed_carnivores carnivoreDefaults Φ sh rand k
      (Cell.mk .lowland true f (List.replicate n a) []) =
    (Cell.mk .lowland true f (List.replicate n a) [], k) := by
  have hnil : sh [] = [] := List.Perm.eq_nil hsh
  simp only [feed_carnivores]
  rw [hnil, mergeSort_replicate]
  rfl

/-- Helper: the birth phase of the scenario cell: every mother weighs 29,
below the herbivore gate zeta * (w_birth + sigma_birth) = 33.25, so no birth
happens. -/
theorem cell_birth_SL (Φ : FitFn) (bdraw wdraw bdrawC wdrawC : ℕ → ℚ)
    (hb : ∀ i, 0 ≤ bdraw i) (f : ℚ) :
    cell_birth herbivoreDefaults carnivoreDefaults Φ bdraw wdraw bdrawC wdrawC
      (Cell.mk .lowland true f
        (List.replicate 50 (Animal.mk .herbivore 5 29 false)) []) =
    Cell.mk .lowland true f
      (List.replicate 50 (Animal.mk .herbivore 5 29 false)) [] := by
  have hw : ∀ a ∈ List.replicate 50 (Animal.mk Species.herbivore 5 29 false),
      a.weight < herbivoreDefaults.zeta *
        (herbivoreDefaults.w_birth + herbivoreDefaults.sigma_birth) := by
    intro a ha
    rw [List.eq_of_mem_replicate ha]
    norm_num [herbivoreDefaults]
  have hg := birth_go_gate herbivoreDefaults Φ bdraw wdraw 50 hb
    (List.replicate 50 (Animal.mk Species.herbivore 5 29 false)) 0 hw
  simp only [cell_birth, List.length_replicate]
  rw [if_pos (by norm_num : (1 : ℕ) < 50)]
  rw [hg]
  simp

/-- Helper: phase one of step on the scenario cell: fodder resets to 800,
feeding brings it to 300 and every herbivore to weight 29, no carnivore
hunts and no birth happens. -/
theorem stepCellPhase1_SL (Φ : FitFn) (o : StepOracle) (ks ke kbH kbC : ℕ)
    (hb : ∀ i, 0 ≤ o.bdrawH i) (hsh : (o.shuffle ks []).Perm []) :
    (stepCellPhase1 herbivoreDefaults carnivoreDefaults Φ defaultLandEnv o ks ke kbH kbC
      (Cell.mk .lowland true 800
        (List.replicate 50 (Animal.mk .herbivore 5 20 false)) [])).1 =
    Cell.mk .lowland true 300
      (List.replicate 50 (Animal.mk .herbivore 5 29 false)) [] := by
  simp only [stepCellPhase1, cell_feed, reset_fodder, defaultLandEnv]
  rw [feed_herbivores_SL Φ]
  rw [feed_carnivores_SL Φ (o.shuffle ks) hsh o.eatRand ke]
  exact cell_birth_SL Φ (fun i => o.bdrawH (kbH + i)) (fun i => o.wdrawH (kbH + i))
    (fun i => o.bdrawC (kbC + i)) (fun i => o.wdrawC (kbC + i))
    (fun i => hb (kbH + i)) 300

/-- C6: in the 3 by 3 geography whose only habitable cell is a Lowland,
placing 50 herbivores of age 5 and weight 20 and calling step() once leaves
that cell's fodder strictly below the Lowland maximum f_max = 800, and every
herbivore alive after the step has age exactly 6.  Quantified over the
fitness kernel and the step randomness, assuming only that the herbivore
birth draws are non-negative (they model uniform samples from [0,1)) and
that the carnivore shuffle permutes its input. -/
theorem C6_single_lowland_step (Φ : FitFn) (o : StepOracle)
    (hb : ∀ i, 0 ≤ o.bdrawH i)
    (hshuf : ∀ (k : ℕ) (l : List Animal), (o.shuffle k l).Perm l) :
    ∃ c : Cell,
      lookupCell (step herbivoreDefaults carnivoreDefaults Φ defaultLandEnv o
        islandSingleLowland) ((2 : ℤ), (2 : ℤ)) = some c ∧
      c.fodder < defaultLandEnv Landtype.lowland ∧
      ∀ a ∈ c.herbivores, a.age = 6 := by
  have hs0 : islandSingleLowland =
      mapSL (Cell.mk .lowland true 800
        (List.replicate 50 (Animal.mk .herbivore 5 20 false)) []) := by rfl
  have h1 : stepLoop1 herbivoreDefaults carnivoreDefaults Φ defaultLandEnv o
      (mapSL (Cell.mk .lowland true 800
        (List.replicate 50 (Animal.mk .herbivore 5 20 false)) [])) 0 0 0 0
      [((2 : ℤ), (2 : ℤ))] =
      mapSL (Cell.mk .lowland true 300
        (List.replicate 50 (Animal.mk .herbivore 5 29 false)) []) := by
    simp only [stepLoop1, lookupCell_mapSL]
    rw [updateCell_mapSL]
    rw [stepCellPhase1_SL Φ o 0 0 0 0 hb (hshuf 0 [])]
  have hmig : migrate o.mig (mapSL (Cell.mk .lowland true 300
      (List.replicate 50 (Animal.mk .herbivore 5 29 false)) [])) =
      mapSL (Cell.mk .lowland true 300
        (List.replicate 50 (Animal.mk .herbivore 5 29 false)) []) :=
    migrate_mapSL o.mig _ (habitableCoords_mapSL 300 _ _)
  have h3 : stepLoop3 herbivoreDefaults carnivoreDefaults Φ o
      (mapSL (Cell.mk .lowland true 300
        (List.replicate 50 (Animal.mk .herbivore 5 29 false)) [])) 0 0
      [((2 : ℤ), (2 : ℤ))] =
      mapSL (stepCellPhase3 herbivoreDefaults carnivoreDefaults Φ o 0 0
        (Cell.mk .lowland true 300
          (List.replicate 50 (Animal.mk .herbivore 5 29 false)) [])).1 := by
    simp only [stepLoop3, lookupCell_mapSL]
    rw [updateCell_mapSL]
  have hstep : step herbivoreDefaults carnivoreDefaults Φ defaultLandEnv o
      islandSingleLowland =
      mapSL (stepCellPhase3 herbivoreDefaults carnivoreDefaults Φ o 0 0
        (Cell.mk .lowland true 300
          (List.replicate 50 (Animal.mk .herbivore 5 29 false)) [])).1 := by
    simp only [step]
    rw [hs0, habitableCoords_mapSL, h1, hmig, habitableCoords_mapSL, h3]
  refine ⟨_, by rw [hstep, lookupCell_mapSL], ?_, ?_⟩
  · rw [show (stepCellPhase3 herbivoreDefaults carnivoreDefaults Φ o 0 0
        (Cell.mk .lowland true 300
          (List.replicate 50 (Animal.mk .herbivore 5 29 false)) [])).1.fodder =
        (300 : ℚ) from rfl]
    norm_num [defaultLandEnv]
  · intro a ha
    rw [show (stepCellPhase3 herbivoreDefaults carnivoreDefaults Φ o 0 0
        (Cell.mk .lowland true 300
          (List.replicate 50 (Animal.mk .herbivore 5 29 false)) [])).1.herbivores =
        (die_go herbivoreDefaults Φ o.deathH 0 (List.replicate 50
          (lose_weight herbivoreDefaults
            (aging (Animal.mk .herbivore 5 29 false))))).1 from rfl] at ha
    have hmem := die_go_subset herbivoreDefaults Φ o.deathH _ 0 a ha
    rw [List.eq_of_mem_replicate hmem]
    rfl

/-- The C6 theorem applied at a concrete input: both hypotheses hold of the
all-zero, identity-shuffle oracle and the conclusion follows. -/
theorem C6_single_lowland_step_witness :
    (∀ i : ℕ, (0 : ℚ) ≤ (StepOracle.mk (fun _ l => l) (fun _ => 0) (fun _ => 0)
        (fun _ => 0) (fun _ => 0) (fun _ => 0)
        (MigOracle.mk (fun _ => false) (fun _ => Dir.up))
        (fun _ => 0) (fun _ => 0)).bdrawH i) ∧
    (∀ (k : ℕ) (l : List Animal),
      ((StepOracle.mk (fun _ l => l) (fun _ => 0) (fun _ => 0)
        (fun _ => 0) (fun _ => 0) (fun _ => 0)
        (MigOracle.mk (fun _ => false) (fun _ => Dir.up))
        (fun _ => 0) (fun _ => 0)).shuffle k l).Perm l) ∧
    (∃ c : Cell,
      lookupCell (step herbivoreDefaults carnivoreDefaults (fun _ _ _ => 0)
        defaultLandEnv
        (StepOracle.mk (fun _ l => l) (fun _ => 0) (fun _ => 0)
          (fun _ => 0) (fun _ => 0) (fun _ => 0)
          (MigOracle.mk (fun _ => false) (fun _ => Dir.up))
          (fun _ => 0) (fun _ => 0))
        islandSingleLowland) ((2 : ℤ), (2 : ℤ)) = some c ∧
      c.fodder < defaultLandEnv Landtype.lowland ∧
      ∀ a ∈ c.herbivores, a.age = 6) :=
  ⟨fun _ => le_refl 0, fun _ l => List.Perm.refl l,
   C6_single_lowland_step (fun _ _ _ => 0)
     (StepOracle.mk (fun _ l => l) (fun _ => 0) (fun _ => 0)
       (fun _ => 0) (fun _ => 0) (fun _ => 0)
       (MigOracle.mk (fun _ => false) (fun _ => Dir.up))
       (fun _ => 0) (fun _ => 0))
     (fun _ => le_refl 0) (fun _ l => List.Perm.refl l)⟩

end BioSim
